import Mathlib

/-!
# Fake generator: declaration-tree construction

A shallow embedding of `generator/generator.go`.  The generator builds a
`go/ast` tree; the tree is embedded as inductive types that keep the fields
the generator sets (every other field of the Go node stays at its zero value
and is left out).  Go run-time panics (failed type assertion, index out of
range, nil dereference) are embedded as `Except GoPanic`.

The serialiser `printer.Fprint` is a parameter of `GenerateFake`; the two
textual replacements of `prettifyCode` act on the characters of the text.
-/

namespace Generator

/-! ## The `go/ast` fragment used by the generator -/

/-- Tokens of `go/token` that the generator writes into nodes. -/
inductive Token
  | ILLEGAL
  | STRING
  | IMPORT
  | TYPE
  | ASSIGN
  | NEQ
  deriving DecidableEq

/-- Run-time panics the generator can raise. -/
inductive GoPanic
  | typeAssertion
  | indexOutOfRange
  | nilDereference
  deriving DecidableEq

mutual
/-- Expressions and type expressions (`ast.Expr`).  `ellipsis` of `CallExpr`
is the `token.Pos` of the call's `...`, with `0` being `token.NoPos`. -/
inductive Expr
  | Ident (name : String)
  | BasicLit (kind : Token) (value : String)
  | SelectorExpr (x : Expr) (sel : String)
  | StarExpr (x : Expr)
  | Ellipsis (elt : Expr)
  | ArrayType (len : Option Expr) (elt : Expr)
  | FuncType (params : Option (List Field)) (results : Option (List Field))
  | StructType (fields : List Field)
  | InterfaceType (methods : Option (List Field))
  | CallExpr (func : Expr) (args : List Expr) (ellipsis : Nat)
  | CompositeLit (typ : Expr) (elts : List Expr)
  | IndexExpr (x : Expr) (index : Expr)
  | BinaryExpr (x : Expr) (op : Token) (y : Expr)
/-- One entry of a field list (`ast.Field`): a group of names with one type. -/
inductive Field
  | mk (names : List String) (typ : Expr)
end

/-- Names of a field entry. -/
def Field.names : Field → List String
  | Field.mk ns _ => ns

/-- Type of a field entry. -/
def Field.typ : Field → Expr
  | Field.mk _ t => t

/-- Function type node (`*ast.FuncType`): `Params` and `Results` are pointers
to field lists and may be nil. -/
structure FuncType where
  params : Option (List Field)
  results : Option (List Field)

/-- The expression node of a function type. -/
def FuncType.toExpr (ft : FuncType) : Expr :=
  Expr.FuncType ft.params ft.results

/-- Statements (`ast.Stmt`).  The body of an `IfStmt` is the statement list of
its block; `els` is the optional else statement. -/
inductive Stmt
  | ExprStmt (x : Expr)
  | DeferStmt (call : Expr)
  | AssignStmt (lhs : List Expr) (tok : Token) (rhs : List Expr)
  | ReturnStmt (results : List Expr)
  | BlockStmt (list : List Stmt)
  | IfStmt (cond : Expr) (body : List Stmt) (els : Option Stmt)

/-- Specs of a general declaration (`ast.Spec`). -/
inductive Spec
  | ImportSpec (path : Expr)
  | TypeSpec (name : String) (typ : Expr)

/-- Function declaration node (`*ast.FuncDecl`). -/
structure FuncDecl where
  name : String
  typ : FuncType
  recv : List Field
  body : List Stmt

/-- Top-level declarations (`ast.Decl`). -/
inductive Decl
  | GenDecl (tok : Token) (specs : List Spec)
  | FuncDecl (d : FuncDecl)

/-- File node (`*ast.File`). -/
structure File where
  name : String
  decls : List Decl

/-- Interface type node (`*ast.InterfaceType`); `Methods` is a pointer to the
field list of its entries. -/
structure InterfaceType where
  methods : Option (List Field)

/-! ## Go primitives used by the generator -/

/-- Type assertion `e.(*ast.FuncType)`; panics on any other node. -/
def assertFuncType : Expr → Except GoPanic FuncType
  | Expr.FuncType ps rs => pure ⟨ps, rs⟩
  | _ => throw GoPanic.typeAssertion

/-- Index expression `names[0]`; panics on an empty slice. -/
def index0 : List String → Except GoPanic String
  | [] => throw GoPanic.indexOutOfRange
  | n :: _ => pure n

/-- Dereference of a field-list pointer (`fl.List`); panics on nil. -/
def derefList : Option (List Field) → Except GoPanic (List Field)
  | none => throw GoPanic.nilDereference
  | some l => pure l

/-- Validity of a position (`token.Pos.IsValid`): different from `NoPos`. -/
def posIsValid (p : Nat) : Bool := p != 0

/-- Lower-casing of the first byte: `strings.ToLower(input[0:1]) + input[1:]`
on a non-empty string.  A string is taken as its sequence of characters; an
ASCII upper-case first character is lowered, and any other first character is
left as it is (the first byte of a character outside ASCII is no letter on
its own). -/
def lowerFirst (input : String) : String :=
  match input.data with
  | [] => input
  | c :: cs => String.mk (c.toLower :: cs)

/-- Upper-casing of the first byte, `strings.ToUpper(input[0:1]) + input[1:]`
on a non-empty string, read as `lowerFirst` is. -/
def upperFirst (input : String) : String :=
  match input.data with
  | [] => input
  | c :: cs => String.mk (c.toUpper :: cs)

/-! ## Naming helpers -/

def nameForMethodResult (i : Nat) : String :=
  "result" ++ toString (i + 1)

def nameForMethodParam (i : Nat) : String :=
  "arg" ++ toString (i + 1)

def publicize (input : String) : Except GoPanic String :=
  if input.data = [] then throw GoPanic.indexOutOfRange else pure (upperFirst input)

def privatize (input : String) : Except GoPanic String :=
  if input.data = [] then throw GoPanic.indexOutOfRange else pure (lowerFirst input)

def callCountMethodName (method : Field) : Except GoPanic String := do
  let n ← index0 method.names
  pure (n ++ "CallCount")

def callArgsMethodName (method : Field) : Except GoPanic String := do
  let n ← index0 method.names
  pure (n ++ "ArgsForCall")

def callArgsFieldName (method : Field) : Except GoPanic String := do
  let n ← callArgsMethodName method
  privatize n

def methodStubFuncName (method : Field) : Except GoPanic String := do
  let n ← index0 method.names
  pure (n ++ "Stub")

def returnSetterMethodName (method : Field) : Except GoPanic String := do
  let n ← index0 method.names
  pure (n ++ "Returns")

def returnStructFieldName (method : Field) : Except GoPanic String := do
  let n ← returnSetterMethodName method
  privatize n

def receiverIdent : Expr := Expr.Ident "fake"

def receiverFieldList (structName : String) : List Field :=
  [Field.mk ["fake"] (Expr.StarExpr (Expr.Ident structName))]

def nilCheck (x : Expr) : Expr :=
  Expr.BinaryExpr x Token.NEQ (Expr.BasicLit Token.STRING "nil")

def storedTypeForType : Expr → Expr
  | Expr.Ellipsis elt => Expr.ArrayType none elt
  | t => t

/-- Outcome of the type assertion `t.(*ast.Ellipsis)`. -/
def isEllipsis : Expr → Bool
  | Expr.Ellipsis _ => true
  | _ => false

/-! ## Builders of the declaration tree -/

def importsDecl : Decl :=
  Decl.GenDecl Token.IMPORT [Spec.ImportSpec (Expr.BasicLit Token.STRING "\"sync\"")]

def argsStructTypeForMethod (methodType : FuncType) : Except GoPanic Expr := do
  let params ← derefList methodType.params
  let fields := params.enum.foldl
    (fun fields (p : Nat × Field) =>
      fields ++ [Field.mk [nameForMethodParam p.1] (storedTypeForType p.2.typ)])
    []
  pure (Expr.StructType fields)

def returnStructTypeForMethod (methodType : FuncType) : Except GoPanic Expr := do
  let results ← derefList methodType.results
  let resultFields := results.enum.foldl
    (fun resultFields (p : Nat × Field) =>
      resultFields ++ [Field.mk [nameForMethodResult p.1] p.2.typ])
    []
  pure (Expr.StructType resultFields)

/-- Loop state of `methodImplementationDecl`: the argument expressions, the
parameter fields and the position of the last variadic parameter seen. -/
structure ParamAcc where
  paramValues : List Expr
  paramFields : List Field
  ellipsisPos : Nat

/-- One iteration of the parameter loop of `methodImplementationDecl`. -/
def paramStep (acc : ParamAcc) (p : Nat × Field) : ParamAcc :=
  { paramValues := acc.paramValues ++ [Expr.Ident (nameForMethodParam p.1)]
    paramFields := acc.paramFields ++ [Field.mk [nameForMethodParam p.1] p.2.typ]
    ellipsisPos := if isEllipsis p.2.typ then p.1 else acc.ellipsisPos }

/-- One iteration of the result loop of `methodImplementationDecl`. -/
def returnValueStep (method : Field) (returnValues : List Expr) (p : Nat × Field) :
    Except GoPanic (List Expr) := do
  let boxName ← returnStructFieldName method
  pure (returnValues ++
    [Expr.SelectorExpr (Expr.SelectorExpr receiverIdent boxName) (nameForMethodResult p.1)])

def methodImplementationDecl (structName : String) (method : Field) :
    Except GoPanic FuncDecl := do
  let methodType ← assertFuncType method.typ
  let stubName ← methodStubFuncName method
  let stubFunc := Expr.SelectorExpr receiverIdent stubName
  let params ← derefList methodType.params
  let acc := params.enum.foldl paramStep ⟨[], [], 0⟩
  let stubFuncCall := Expr.CallExpr stubFunc acc.paramValues acc.ellipsisPos
  let lastStatement ←
    match methodType.results with
    | some results => do
      let returnValues ← results.enum.foldlM (returnValueStep method) []
      pure (Stmt.IfStmt (nilCheck stubFunc)
        [Stmt.ReturnStmt [stubFuncCall]]
        (some (Stmt.BlockStmt [Stmt.ReturnStmt returnValues])))
    | none =>
      pure (Stmt.IfStmt (nilCheck stubFunc) [Stmt.ExprStmt stubFuncCall] none)
  let name ← index0 method.names
  let logName ← callArgsFieldName method
  let argsStruct ← argsStructTypeForMethod methodType
  pure
    { name := name
      typ := { params := some acc.paramFields, results := methodType.results }
      recv := receiverFieldList structName
      body :=
        [ Stmt.ExprStmt (Expr.CallExpr (Expr.SelectorExpr receiverIdent "Lock") [] 0),
          Stmt.DeferStmt (Expr.CallExpr (Expr.SelectorExpr receiverIdent "Unlock") [] 0),
          Stmt.AssignStmt [Expr.SelectorExpr receiverIdent logName] Token.ASSIGN
            [Expr.CallExpr (Expr.Ident "append")
              [Expr.SelectorExpr receiverIdent logName,
               Expr.CompositeLit argsStruct acc.paramValues] 0],
          lastStatement ] }

def methodCallCountGetterDecl (structName : String) (method : Field) :
    Except GoPanic FuncDecl := do
  let name ← callCountMethodName method
  let logName ← callArgsFieldName method
  pure
    { name := name
      typ := { params := none, results := some [Field.mk [] (Expr.Ident "int")] }
      recv := receiverFieldList structName
      body :=
        [ Stmt.ExprStmt (Expr.CallExpr (Expr.SelectorExpr receiverIdent "RLock") [] 0),
          Stmt.DeferStmt (Expr.CallExpr (Expr.SelectorExpr receiverIdent "RUnlock") [] 0),
          Stmt.ReturnStmt
            [Expr.CallExpr (Expr.Ident "len") [Expr.SelectorExpr receiverIdent logName] 0] ] }

/-- Loop state of `methodCallArgsGetterDecl`. -/
structure ResultAcc where
  resultValues : List Expr
  resultTypes : List Field

/-- One iteration of the parameter loop of `methodCallArgsGetterDecl`. -/
def callArgsStep (method : Field) (acc : ResultAcc) (p : Nat × Field) :
    Except GoPanic ResultAcc := do
  let logName ← callArgsFieldName method
  pure
    { resultValues := acc.resultValues ++
        [Expr.SelectorExpr
          (Expr.IndexExpr (Expr.SelectorExpr receiverIdent logName) (Expr.Ident "i"))
          (nameForMethodParam p.1)]
      resultTypes := acc.resultTypes ++ [Field.mk [] (storedTypeForType p.2.typ)] }

def methodCallArgsGetterDecl (structName : String) (method : Field) :
    Except GoPanic FuncDecl := do
  let methodType ← assertFuncType method.typ
  let params ← derefList methodType.params
  let acc ← params.enum.foldlM (callArgsStep method) ⟨[], []⟩
  let name ← callArgsMethodName method
  pure
    { name := name
      typ :=
        { params := some [Field.mk ["i"] (Expr.Ident "int")]
          results := some acc.resultTypes }
      recv := receiverFieldList structName
      body :=
        [ Stmt.ExprStmt (Expr.CallExpr (Expr.SelectorExpr receiverIdent "RLock") [] 0),
          Stmt.DeferStmt (Expr.CallExpr (Expr.SelectorExpr receiverIdent "RUnlock") [] 0),
          Stmt.ReturnStmt acc.resultValues ] }

/-- Loop state of `methodReturnsSetterDecl`. -/
structure SetterAcc where
  params : List Field
  structFields : List Expr

/-- One iteration of the result loop of `methodReturnsSetterDecl`. -/
def setterStep (acc : SetterAcc) (p : Nat × Field) : SetterAcc :=
  { params := acc.params ++ [Field.mk [nameForMethodResult p.1] p.2.typ]
    structFields := acc.structFields ++ [Expr.Ident (nameForMethodResult p.1)] }

def methodReturnsSetterDecl (structName : String) (method : Field) :
    Except GoPanic FuncDecl := do
  let methodType ← assertFuncType method.typ
  let results ← derefList methodType.results
  let acc := results.enum.foldl setterStep ⟨[], []⟩
  let name ← returnSetterMethodName method
  let boxName ← returnStructFieldName method
  let boxType ← returnStructTypeForMethod methodType
  pure
    { name := name
      typ := { params := some acc.params, results := none }
      recv := receiverFieldList structName
      body :=
        [ Stmt.AssignStmt [Expr.SelectorExpr receiverIdent boxName] Token.ASSIGN
            [Expr.CompositeLit boxType acc.structFields] ] }

/-- One iteration of the method loop of `typeDecl`. -/
def typeDeclStep (structFields : List Field) (method : Field) :
    Except GoPanic (List Field) := do
  let methodType ← assertFuncType method.typ
  let stubName ← methodStubFuncName method
  let logName ← callArgsFieldName method
  let argsStruct ← argsStructTypeForMethod methodType
  let structFields := structFields ++
    [ Field.mk [stubName] method.typ,
      Field.mk [logName] (Expr.ArrayType none argsStruct) ]
  if methodType.results.isSome then
    let boxName ← returnStructFieldName method
    let boxType ← returnStructTypeForMethod methodType
    pure (structFields ++ [Field.mk [boxName] boxType])
  else
    pure structFields

def typeDecl (structName : String) (iface : InterfaceType) : Except GoPanic Decl := do
  let structFields :=
    [Field.mk [] (Expr.SelectorExpr (Expr.Ident "sync") "RWMutex")]
  let methods ← derefList iface.methods
  let structFields ← methods.foldlM typeDeclStep structFields
  pure (Decl.GenDecl Token.TYPE [Spec.TypeSpec structName (Expr.StructType structFields)])

/-- One iteration of the method loop of `sourceFile`. -/
def sourceFileStep (structName : String) (declarations : List Decl) (method : Field) :
    Except GoPanic (List Decl) := do
  let methodType ← assertFuncType method.typ
  let impl ← methodImplementationDecl structName method
  let counter ← methodCallCountGetterDecl structName method
  let getter ← methodCallArgsGetterDecl structName method
  let declarations := declarations ++
    [Decl.FuncDecl impl, Decl.FuncDecl counter, Decl.FuncDecl getter]
  if methodType.results.isSome then
    let setter ← methodReturnsSetterDecl structName method
    pure (declarations ++ [Decl.FuncDecl setter])
  else
    pure declarations

def sourceFile (structName packageName : String) (interfaceNode : InterfaceType) :
    Except GoPanic File := do
  let types ← typeDecl structName interfaceNode
  let declarations := [importsDecl, types]
  let methods ← derefList interfaceNode.methods
  let declarations ← methods.foldlM (sourceFileStep structName) declarations
  pure { name := packageName, decls := declarations }

/-! ## Vocabulary of the statements -/

/-- A method entry of an interface as the parser delivers it: one name and a
function type whose parameter list is allocated.  `results` is `none` when the
signature has no result list (`Results == nil`). -/
def methodField (name : String) (params : List Field) (results : Option (List Field)) :
    Field :=
  Field.mk [name] (Expr.FuncType (some params) results)

/-- Signature of one interface method. -/
structure MethodSig where
  name : String
  params : List Field
  results : Option (List Field)

/-- The interface entry of a method signature. -/
def MethodSig.field (m : MethodSig) : Field :=
  methodField m.name m.params m.results

/-- The function type of a method signature. -/
def MethodSig.funcType (m : MethodSig) : FuncType :=
  { params := some m.params, results := m.results }

/-- The interface whose method list is `ms`, in that order. -/
def interfaceOf (ms : List MethodSig) : InterfaceType :=
  { methods := some (ms.map MethodSig.field) }

/-- Number of parameters (or results) a field list declares: every name of a
group counts, an entry without names counts once (`FieldList.NumFields`). -/
def numFields (l : List Field) : Nat :=
  (l.map fun f => if f.names.length = 0 then 1 else f.names.length).sum

/-- Types of the parameters (or results) a field list declares, one per
declared name, in order. -/
def declaredTypes (l : List Field) : List Expr :=
  l.flatMap fun f => List.replicate (if f.names.length = 0 then 1 else f.names.length) f.typ

/-- Declarations listed for one method, each as the outcome of its builder:
implementation, call-count accessor, call-args accessor and, when the method
has a result list, returns setter. -/
def methodDecls (structName : String) (m : MethodSig) : List (Except GoPanic Decl) :=
  [ Decl.FuncDecl <$> methodImplementationDecl structName m.field,
    Decl.FuncDecl <$> methodCallCountGetterDecl structName m.field,
    Decl.FuncDecl <$> methodCallArgsGetterDecl structName m.field ] ++
  if m.results.isSome then
    [Decl.FuncDecl <$> methodReturnsSetterDecl structName m.field]
  else []

/-- Struct fields listed for one method, each built from the outcome of the
helpers named: the stub-hook field, the call-log field and, when the method
has a result list, the return-box field. -/
def methodStateFields (m : MethodSig) : List (Except GoPanic Field) :=
  [ pure (Field.mk [m.name ++ "Stub"] (Expr.FuncType (some m.params) m.results)),
    (do
      let logName ← callArgsFieldName m.field
      let record ← argsStructTypeForMethod m.funcType
      pure (Field.mk [logName] (Expr.ArrayType none record))) ] ++
  if m.results.isSome then
    [ (do
        let boxName ← returnStructFieldName m.field
        let box ← returnStructTypeForMethod m.funcType
        pure (Field.mk [boxName] box)) ]
  else []

/-- Name of a function declaration, if the declaration is one. -/
def funcDeclName : Decl → Option String
  | Decl.FuncDecl d => some d.name
  | Decl.GenDecl _ _ => none

/-- Field names of the struct a type declaration declares, entry by entry. -/
def structFieldNames : Decl → List (List String)
  | Decl.GenDecl _ [Spec.TypeSpec _ (Expr.StructType fields)] => fields.map Field.names
  | _ => []

/-- The stub-hook call of an implementation: the call in the then-branch of
the last statement of its body. -/
def stubHookCall (d : FuncDecl) : Option Expr :=
  match d.body.getLast? with
  | some (Stmt.IfStmt _ [Stmt.ReturnStmt [c]] _) => some c
  | some (Stmt.IfStmt _ [Stmt.ExprStmt c] _) => some c
  | _ => none

/-- Whether a call is printed with a trailing `...`: its `Ellipsis` position
is valid. -/
def isSpreadCall : Expr → Bool
  | Expr.CallExpr _ _ ellipsis => posIsValid ellipsis
  | _ => false

/-- Values returned by the else-branch of the last statement of a body. -/
def elseReturnValues (d : FuncDecl) : Option (List Expr) :=
  match d.body.getLast? with
  | some (Stmt.IfStmt _ _ (some (Stmt.BlockStmt [Stmt.ReturnStmt vs]))) => some vs
  | _ => none

mutual
/-- Number of statements inside `s`, at any depth, that assign to the field
`log` of the receiver the result of a call to `append`. -/
def appendCount (log : String) : Stmt → Nat
  | Stmt.AssignStmt [Expr.SelectorExpr _ l] _ [Expr.CallExpr (Expr.Ident f) _ _] =>
    if l = log ∧ f = "append" then 1 else 0
  | Stmt.BlockStmt list => appendCountList log list
  | Stmt.IfStmt _ body els => appendCountList log body + appendCountOpt log els
  | _ => 0
/-- Sum of `appendCount` over a statement list. -/
def appendCountList (log : String) : List Stmt → Nat
  | [] => 0
  | s :: ss => appendCount log s + appendCountList log ss
/-- The count `appendCount` of an optional statement. -/
def appendCountOpt (log : String) : Option Stmt → Nat
  | none => 0
  | some s => appendCount log s
end

/-! ## Sample interfaces -/

/-- Method `Add(a, b int) int`: one parameter group declaring two names. -/
def addMethod : Field :=
  methodField "Add" [Field.mk ["a", "b"] (Expr.Ident "int")]
    (some [Field.mk [] (Expr.Ident "int")])

/-- Method `Log(args ...string)`: its only parameter is variadic. -/
def logMethod : Field :=
  methodField "Log" [Field.mk ["args"] (Expr.Ellipsis (Expr.Ident "string"))] none

/-- Method `Logf(format string, args ...string)`. -/
def logfMethod : Field :=
  methodField "Logf"
    [Field.mk ["format"] (Expr.Ident "string"),
     Field.mk ["args"] (Expr.Ellipsis (Expr.Ident "string"))] none

/-- Signature `Close() ()`: the result list is present but empty. -/
def closeSig : MethodSig :=
  { name := "Close", params := [], results := some [] }

/-- Signature `Greet(name string) (string, error)`. -/
def greetSig : MethodSig :=
  { name := "Greet"
    params := [Field.mk ["name"] (Expr.Ident "string")]
    results := some [Field.mk [] (Expr.Ident "string"), Field.mk [] (Expr.Ident "error")] }

/-- Signature `Stop()`: no result list. -/
def stopSig : MethodSig :=
  { name := "Stop", params := [], results := none }

/-- Method `Pair() (a, b int)`: one result group declaring two names. -/
def pairSig : MethodSig :=
  { name := "Pair", params := [], results := some [Field.mk ["a", "b"] (Expr.Ident "int")] }


/-! ## Text of the generated file -/

/-- Replacement of every leftmost non-overlapping occurrence of the non-empty
text `old` by `new`, scanning left to right without rescanning replaced text:
`strings.Replace(s, old, new, -1)`, and `ReplaceAllString` of a regular
expression that matches one fixed text.  `skip` counts the characters of a
match that are still to be passed over. -/
def replaceAllFrom (old new : List Char) : Nat → List Char → List Char
  | _, [] => []
  | skip + 1, _ :: cs => replaceAllFrom old new skip cs
  | 0, c :: cs =>
    if old.isPrefixOf (c :: cs) then new ++ replaceAllFrom old new (old.length - 1) cs
    else c :: replaceAllFrom old new 0 cs

/-- Replacement `funcRegexp.ReplaceAllString(code, "\n\n$1")`: the expression
`"\n(func)"` matches the text of a newline followed by `func`, its group 1 is
`func`, so each match is replaced by two newlines followed by `func`. -/
def funcRegexpReplaceAll (code : List Char) : List Char :=
  replaceAllFrom "\nfunc".data "\n\nfunc".data 0 code

def prettifyCode (code : String) : String :=
  let code := funcRegexpReplaceAll code.data
  let code := replaceAllFrom "\n\n\n".data "\n\n".data 0 code
  String.mk code

/-- Generation of the fake's source text.  `fprint` is the serialisation
`printer.Fprint` into a fresh buffer over a fresh file set: it yields the text
written to the buffer and the error it returns (`none` for `nil`). -/
def GenerateFake {ε : Type} (fprint : File → String × Option ε)
    (structName packageName : String) (interfaceNode : InterfaceType) :
    Except GoPanic (String × Option ε) := do
  let file ← sourceFile structName packageName interfaceNode
  let printed := fprint file
  pure (prettifyCode printed.1, printed.2)

mutual
/-- Names of the functions and methods called anywhere inside an expression:
the identifier of a called function, the selector of a called method. -/
def exprCalls : Expr → List String
  | Expr.CallExpr (Expr.Ident f) args _ => f :: exprListCalls args
  | Expr.CallExpr (Expr.SelectorExpr x sel) args _ => sel :: (exprCalls x ++ exprListCalls args)
  | Expr.CallExpr func args _ => exprCalls func ++ exprListCalls args
  | Expr.SelectorExpr x _ => exprCalls x
  | Expr.StarExpr x => exprCalls x
  | Expr.IndexExpr x index => exprCalls x ++ exprCalls index
  | Expr.BinaryExpr x _ y => exprCalls x ++ exprCalls y
  | Expr.CompositeLit _ elts => exprListCalls elts
  | _ => []
/-- Names called inside the expressions of a list. -/
def exprListCalls : List Expr → List String
  | [] => []
  | e :: es => exprCalls e ++ exprListCalls es
end

mutual
/-- Names of the functions and methods called anywhere inside a statement. -/
def stmtCalls : Stmt → List String
  | Stmt.ExprStmt x => exprCalls x
  | Stmt.DeferStmt call => exprCalls call
  | Stmt.AssignStmt lhs _ rhs => exprListCalls lhs ++ exprListCalls rhs
  | Stmt.ReturnStmt results => exprListCalls results
  | Stmt.BlockStmt list => stmtListCalls list
  | Stmt.IfStmt cond body els => exprCalls cond ++ stmtListCalls body ++ stmtOptCalls els
/-- Names called inside the statements of a list. -/
def stmtListCalls : List Stmt → List String
  | [] => []
  | s :: ss => stmtCalls s ++ stmtListCalls ss
/-- Names called inside an optional statement. -/
def stmtOptCalls : Option Stmt → List String
  | none => []
  | some s => stmtCalls s
end

/-- The two replacements of `prettifyCode` on the characters of a text. -/
def prettifyChars (code : List Char) : List Char :=
  replaceAllFrom "\n\n\n".data "\n\n".data 0 (funcRegexpReplaceAll code)

/-- The text holds a run of three or more consecutive newline characters. -/
def hasBlankRun (s : List Char) : Prop :=
  "\n\n\n".data <:+: s

/-- Every `func` that directly follows a newline is preceded by exactly two
newline characters: before each occurrence of a newline followed by `func`
stands one more newline, and before that one no newline. -/
def funcsSpaced (s : List Char) : Prop :=
  ∀ a b, s = a ++ "\nfunc".data ++ b → ∃ a', a = a' ++ ['\n'] ∧ a'.getLast? ≠ some '\n'

/-- The text holds three consecutive newline characters directly followed by
`func`. -/
def hasBlankRunBeforeFunc (s : List Char) : Prop :=
  "\n\n\nfunc".data <:+: s

/-- Interface `interface { Stringer; Close() }`: its first entry embeds the
interface `Stringer`, so that entry has no name and its type is an identifier. -/
def embeddingInterface : InterfaceType :=
  { methods := some [Field.mk [] (Expr.Ident "Stringer"), methodField "Close" [] none] }

/-- Interface value whose only entry has a function type but no name. -/
def unnamedEntryInterface : InterfaceType :=
  { methods := some [Field.mk [] (Expr.FuncType (some []) none)] }

/-- A serialiser that writes `package fakes` and then fails. -/
def failingFprint (_ : File) : String × Option String :=
  ("package fakes\n", some "short write")

/-- Signature `Lock()`, as in `sync.Locker`. -/
def lockSig : MethodSig :=
  { name := "Lock", params := [], results := none }

/-- Name of the type a receiver list points to: `T` for `(x *T)`. -/
def receiverTypeName : List Field → Option String
  | [Field.mk _ (Expr.StarExpr (Expr.Ident t))] => some t
  | _ => none

/-- Names of the methods a file declares on the pointer to `structName`.  A
selector `x.m` on a value of that type denotes such a method when there is one;
only otherwise does it denote the method `m` promoted from an embedded field. -/
def declaredMethods (structName : String) (file : File) : List String :=
  file.decls.filterMap fun d =>
    match d with
    | Decl.FuncDecl fd =>
      if receiverTypeName fd.recv = some structName then some fd.name else none
    | Decl.GenDecl _ _ => none

/-- Name a receiver list binds: `x` for `(x *T)`. -/
def receiverName : List Field → Option String
  | [Field.mk [x] _] => some x
  | _ => none

/-- Whether a statement is the call `x.m(..)` of `m` on the identifier `x`. -/
def isCallOn (x m : String) : Stmt → Bool
  | Stmt.ExprStmt (Expr.CallExpr (Expr.SelectorExpr (Expr.Ident y) sel) _ _) =>
    y == x && sel == m
  | _ => false

/-- Whether the first statement of a method is the call, on the method's own
receiver, of a method with the method's own name. -/
def beginsWithOwnCall (d : FuncDecl) : Bool :=
  match receiverName d.recv, d.body.head? with
  | some x, some stmt => isCallOn x d.name stmt
  | _, _ => false

/-- The function declaration called `name` in a file, if there is one. -/
def findFuncDecl (name : String) (file : File) : Option FuncDecl :=
  file.decls.findSome? fun d =>
    match d with
    | Decl.FuncDecl fd => if fd.name = name then some fd else none
    | Decl.GenDecl _ _ => none

/-! ## Loops as maps -/

@[simp] theorem Field.typ_mk (ns : List String) (t : Expr) : (Field.mk ns t).typ = t := rfl

@[simp] theorem Field.names_mk (ns : List String) (t : Expr) : (Field.mk ns t).names = ns := rfl

theorem foldl_snoc_map {α β : Type} (g : α → β) (l : List α) (init : List β) :
    l.foldl (fun acc p => acc ++ [g p]) init = init ++ l.map g := by
  induction l generalizing init with
  | nil => simp
  | cons p l ih => simp [ih]

theorem foldl_paramStep (l : List (Nat × Field)) (acc : ParamAcc) :
    l.foldl paramStep acc =
      { paramValues := acc.paramValues ++ l.map fun p => Expr.Ident (nameForMethodParam p.1)
        paramFields := acc.paramFields ++ l.map fun p => Field.mk [nameForMethodParam p.1] p.2.typ
        ellipsisPos := l.foldl (fun e p => if isEllipsis p.2.typ then p.1 else e) acc.ellipsisPos } := by
  induction l generalizing acc with
  | nil => simp
  | cons p l ih => simp [ih, paramStep]

theorem foldl_setterStep (l : List (Nat × Field)) (acc : SetterAcc) :
    l.foldl setterStep acc =
      { params := acc.params ++ l.map fun p => Field.mk [nameForMethodResult p.1] p.2.typ
        structFields := acc.structFields ++ l.map fun p => Expr.Ident (nameForMethodResult p.1) } := by
  induction l generalizing acc with
  | nil => simp
  | cons p l ih => simp [ih, setterStep]

theorem foldlM_returnValueStep (method : Field) (box : String)
    (h : returnStructFieldName method = .ok box) (l : List (Nat × Field)) (init : List Expr) :
    l.foldlM (returnValueStep method) init =
      .ok (init ++ l.map fun p =>
        Expr.SelectorExpr (Expr.SelectorExpr receiverIdent box) (nameForMethodResult p.1)) := by
  induction l generalizing init with
  | nil => simp; rfl
  | cons p l ih =>
    rw [List.foldlM_cons]
    have hs : returnValueStep method init p = .ok (init ++
        [Expr.SelectorExpr (Expr.SelectorExpr receiverIdent box) (nameForMethodResult p.1)]) := by
      simp [returnValueStep, h]
    rw [hs]
    show List.foldlM _ _ l = _
    rw [ih]; simp

theorem foldlM_callArgsStep (method : Field) (logName : String)
    (h : callArgsFieldName method = .ok logName) (l : List (Nat × Field)) (acc : ResultAcc) :
    l.foldlM (callArgsStep method) acc =
      .ok { resultValues := acc.resultValues ++ l.map fun p =>
              Expr.SelectorExpr
                (Expr.IndexExpr (Expr.SelectorExpr receiverIdent logName) (Expr.Ident "i"))
                (nameForMethodParam p.1)
            resultTypes := acc.resultTypes ++ l.map fun p =>
              Field.mk [] (storedTypeForType p.2.typ) } := by
  induction l generalizing acc with
  | nil => simp; rfl
  | cons p l ih =>
    rw [List.foldlM_cons]
    have hs : callArgsStep method acc p = .ok
        { resultValues := acc.resultValues ++
            [Expr.SelectorExpr
              (Expr.IndexExpr (Expr.SelectorExpr receiverIdent logName) (Expr.Ident "i"))
              (nameForMethodParam p.1)]
          resultTypes := acc.resultTypes ++ [Field.mk [] (storedTypeForType p.2.typ)] } := by
      simp [callArgsStep, h]
    rw [hs]
    show List.foldlM _ _ l = _
    rw [ih]; simp

/-! ## Derived names of a method entry -/

theorem privatize_append (n s : String) (h : s.data ≠ []) :
    privatize (n ++ s) = .ok (lowerFirst (n ++ s)) := by
  unfold privatize
  rw [if_neg (by simp [String.data_append, h])]
  rfl

theorem methodStubFuncName_methodField (n : String) (ps : List Field) (rs : Option (List Field)) :
    methodStubFuncName (methodField n ps rs) = .ok (n ++ "Stub") := rfl

theorem callCountMethodName_methodField (n : String) (ps : List Field)
    (rs : Option (List Field)) :
    callCountMethodName (methodField n ps rs) = .ok (n ++ "CallCount") := rfl

theorem callArgsMethodName_methodField (n : String) (ps : List Field)
    (rs : Option (List Field)) :
    callArgsMethodName (methodField n ps rs) = .ok (n ++ "ArgsForCall") := rfl

theorem returnSetterMethodName_methodField (n : String) (ps : List Field)
    (rs : Option (List Field)) :
    returnSetterMethodName (methodField n ps rs) = .ok (n ++ "Returns") := rfl

theorem callArgsFieldName_methodField (n : String) (ps : List Field) (rs : Option (List Field)) :
    callArgsFieldName (methodField n ps rs) = .ok (lowerFirst (n ++ "ArgsForCall")) := by
  show privatize (n ++ "ArgsForCall") = _
  exact privatize_append n "ArgsForCall" (by decide)

theorem returnStructFieldName_methodField (n : String) (ps : List Field)
    (rs : Option (List Field)) :
    returnStructFieldName (methodField n ps rs) = .ok (lowerFirst (n ++ "Returns")) := by
  show privatize (n ++ "Returns") = _
  exact privatize_append n "Returns" (by decide)

/-! ## Closed forms of the builders on a method entry -/

theorem argsStructTypeForMethod_some (ps : List Field) (rs : Option (List Field)) :
    argsStructTypeForMethod { params := some ps, results := rs } =
      .ok (Expr.StructType (ps.enum.map fun p =>
        Field.mk [nameForMethodParam p.1] (storedTypeForType p.2.typ))) := by
  simp [argsStructTypeForMethod, derefList, foldl_snoc_map]
  rfl

theorem returnStructTypeForMethod_some (ps : Option (List Field)) (rs : List Field) :
    returnStructTypeForMethod { params := ps, results := some rs } =
      .ok (Expr.StructType (rs.enum.map fun p =>
        Field.mk [nameForMethodResult p.1] p.2.typ)) := by
  simp [returnStructTypeForMethod, derefList, foldl_snoc_map]
  rfl

theorem methodImplementationDecl_methodField (structName name : String) (ps : List Field)
    (rs : Option (List Field)) :
    methodImplementationDecl structName (methodField name ps rs) = .ok
      { name := name
        typ :=
          { params := some (ps.enum.map fun p => Field.mk [nameForMethodParam p.1] p.2.typ)
            results := rs }
        recv := receiverFieldList structName
        body :=
          [ Stmt.ExprStmt (Expr.CallExpr (Expr.SelectorExpr receiverIdent "Lock") [] 0),
            Stmt.DeferStmt (Expr.CallExpr (Expr.SelectorExpr receiverIdent "Unlock") [] 0),
            Stmt.AssignStmt
              [Expr.SelectorExpr receiverIdent (lowerFirst (name ++ "ArgsForCall"))]
              Token.ASSIGN
              [Expr.CallExpr (Expr.Ident "append")
                [ Expr.SelectorExpr receiverIdent (lowerFirst (name ++ "ArgsForCall")),
                  Expr.CompositeLit
                    (Expr.StructType (ps.enum.map fun p =>
                      Field.mk [nameForMethodParam p.1] (storedTypeForType p.2.typ)))
                    (ps.enum.map fun p => Expr.Ident (nameForMethodParam p.1)) ] 0],
            match rs with
            | some results =>
              Stmt.IfStmt (nilCheck (Expr.SelectorExpr receiverIdent (name ++ "Stub")))
                [Stmt.ReturnStmt
                  [Expr.CallExpr (Expr.SelectorExpr receiverIdent (name ++ "Stub"))
                    (ps.enum.map fun p => Expr.Ident (nameForMethodParam p.1))
                    (ps.enum.foldl (fun e p => if isEllipsis p.2.typ then p.1 else e) 0)]]
                (some (Stmt.BlockStmt [Stmt.ReturnStmt (results.enum.map fun p =>
                  Expr.SelectorExpr
                    (Expr.SelectorExpr receiverIdent (lowerFirst (name ++ "Returns")))
                    (nameForMethodResult p.1))]))
            | none =>
              Stmt.IfStmt (nilCheck (Expr.SelectorExpr receiverIdent (name ++ "Stub")))
                [Stmt.ExprStmt
                  (Expr.CallExpr (Expr.SelectorExpr receiverIdent (name ++ "Stub"))
                    (ps.enum.map fun p => Expr.Ident (nameForMethodParam p.1))
                    (ps.enum.foldl (fun e p => if isEllipsis p.2.typ then p.1 else e) 0))]
                none ] } := by
  have hlog := callArgsFieldName_methodField name ps rs
  have hbox := returnStructFieldName_methodField name ps rs
  have hargs := argsStructTypeForMethod_some ps rs
  cases rs with
  | none =>
    simp only [methodField] at hlog hbox ⊢
    simp [methodImplementationDecl, assertFuncType, methodStubFuncName, index0, derefList,
      foldl_paramStep, hlog, hargs]
    rfl
  | some results =>
    simp only [methodField] at hlog hbox ⊢
    simp [methodImplementationDecl, assertFuncType, methodStubFuncName, index0, derefList,
      foldl_paramStep, hlog, hargs, foldlM_returnValueStep _ _ hbox]
    rfl

theorem methodCallCountGetterDecl_methodField (structName name : String) (ps : List Field)
    (rs : Option (List Field)) :
    methodCallCountGetterDecl structName (methodField name ps rs) = .ok
      { name := name ++ "CallCount"
        typ := { params := none, results := some [Field.mk [] (Expr.Ident "int")] }
        recv := receiverFieldList structName
        body :=
          [ Stmt.ExprStmt (Expr.CallExpr (Expr.SelectorExpr receiverIdent "RLock") [] 0),
            Stmt.DeferStmt (Expr.CallExpr (Expr.SelectorExpr receiverIdent "RUnlock") [] 0),
            Stmt.ReturnStmt
              [Expr.CallExpr (Expr.Ident "len")
                [Expr.SelectorExpr receiverIdent (lowerFirst (name ++ "ArgsForCall"))] 0] ] } := by
  have hlog := callArgsFieldName_methodField name ps rs
  simp [methodCallCountGetterDecl, callCountMethodName_methodField, hlog]
  rfl

theorem methodCallArgsGetterDecl_methodField (structName name : String) (ps : List Field)
    (rs : Option (List Field)) :
    methodCallArgsGetterDecl structName (methodField name ps rs) = .ok
      { name := name ++ "ArgsForCall"
        typ :=
          { params := some [Field.mk ["i"] (Expr.Ident "int")]
            results := some (ps.enum.map fun p => Field.mk [] (storedTypeForType p.2.typ)) }
        recv := receiverFieldList structName
        body :=
          [ Stmt.ExprStmt (Expr.CallExpr (Expr.SelectorExpr receiverIdent "RLock") [] 0),
            Stmt.DeferStmt (Expr.CallExpr (Expr.SelectorExpr receiverIdent "RUnlock") [] 0),
            Stmt.ReturnStmt (ps.enum.map fun p =>
              Expr.SelectorExpr
                (Expr.IndexExpr
                  (Expr.SelectorExpr receiverIdent (lowerFirst (name ++ "ArgsForCall")))
                  (Expr.Ident "i"))
                (nameForMethodParam p.1)) ] } := by
  have hlog := callArgsFieldName_methodField name ps rs
  simp only [methodField] at hlog ⊢
  simp [methodCallArgsGetterDecl, assertFuncType, derefList, foldlM_callArgsStep _ _ hlog,
    callArgsMethodName, index0]

theorem methodReturnsSetterDecl_methodField (structName name : String) (ps : List Field)
    (results : List Field) :
    methodReturnsSetterDecl structName (methodField name ps (some results)) = .ok
      { name := name ++ "Returns"
        typ :=
          { params := some (results.enum.map fun p =>
              Field.mk [nameForMethodResult p.1] p.2.typ)
            results := none }
        recv := receiverFieldList structName
        body :=
          [ Stmt.AssignStmt
              [Expr.SelectorExpr receiverIdent (lowerFirst (name ++ "Returns"))]
              Token.ASSIGN
              [Expr.CompositeLit
                (Expr.StructType (results.enum.map fun p =>
                  Field.mk [nameForMethodResult p.1] p.2.typ))
                (results.enum.map fun p => Expr.Ident (nameForMethodResult p.1))] ] } := by
  have hbox := returnStructFieldName_methodField name ps (some results)
  have hty := returnStructTypeForMethod_some (some ps) results
  simp only [methodField] at hbox ⊢
  simp [methodReturnsSetterDecl, assertFuncType, derefList, foldl_setterStep,
    returnSetterMethodName, index0, hbox, hty]
  rfl

/-! ## The method loops of `typeDecl` and `sourceFile` -/

theorem foldlM_append_steps {α β γ δ : Type} (step : List β → α → Except GoPanic (List β))
    (entry : δ → α) (wrap : β → γ) (listed : δ → List γ) (count : δ → Nat)
    (h : ∀ acc d, ∃ bs, step acc (entry d) = .ok (acc ++ bs) ∧ bs.map wrap = listed d ∧
      bs.length = count d)
    (l : List δ) (acc : List β) :
    ∃ all, (l.map entry).foldlM step acc = .ok (acc ++ all) ∧
      all.map wrap = l.flatMap listed ∧ all.length = (l.map count).sum := by
  induction l generalizing acc with
  | nil => exact ⟨[], by simp; rfl, by simp, by simp⟩
  | cons d l ih =>
    obtain ⟨bs, hstep, hwrap, hlen⟩ := h acc d
    obtain ⟨rest, hfold, hrest, hrlen⟩ := ih (acc ++ bs)
    refine ⟨bs ++ rest, ?_, ?_, ?_⟩
    · rw [List.map_cons, List.foldlM_cons, hstep]
      show List.foldlM step (acc ++ bs) (List.map entry l) = _
      rw [hfold, List.append_assoc]
    · simp [hwrap, hrest]
    · simp [hlen, hrlen]

theorem typeDeclStep_field (acc : List Field) (m : MethodSig) :
    ∃ fs, typeDeclStep acc m.field = .ok (acc ++ fs) ∧
      fs.map Except.ok = methodStateFields m ∧
      fs.length = if m.results.isSome then 3 else 2 := by
  obtain ⟨name, ps, rs⟩ := m
  have hlog := callArgsFieldName_methodField name ps rs
  have hbox := returnStructFieldName_methodField name ps rs
  have hargs := argsStructTypeForMethod_some ps rs
  cases rs with
  | none =>
    refine ⟨[ Field.mk [name ++ "Stub"] (Expr.FuncType (some ps) none),
      Field.mk [lowerFirst (name ++ "ArgsForCall")] (Expr.ArrayType none
        (Expr.StructType (ps.enum.map fun p =>
          Field.mk [nameForMethodParam p.1] (storedTypeForType p.2.typ)))) ], ?_, ?_, ?_⟩
    · simp only [MethodSig.field, methodField] at hlog hbox ⊢
      simp [typeDeclStep, assertFuncType, methodStubFuncName, index0, hlog, hargs]
      rfl
    · simp only [MethodSig.field, MethodSig.funcType, methodStateFields]
      simp [hlog, hargs]
      exact ⟨rfl, rfl⟩
    · simp
  | some results =>
    have hty := returnStructTypeForMethod_some (some ps) results
    refine ⟨[ Field.mk [name ++ "Stub"] (Expr.FuncType (some ps) (some results)),
      Field.mk [lowerFirst (name ++ "ArgsForCall")] (Expr.ArrayType none
        (Expr.StructType (ps.enum.map fun p =>
          Field.mk [nameForMethodParam p.1] (storedTypeForType p.2.typ)))),
      Field.mk [lowerFirst (name ++ "Returns")]
        (Expr.StructType (results.enum.map fun p =>
          Field.mk [nameForMethodResult p.1] p.2.typ)) ], ?_, ?_, ?_⟩
    · simp only [MethodSig.field, methodField] at hlog hbox ⊢
      simp [typeDeclStep, assertFuncType, methodStubFuncName, index0, hlog, hargs, hbox, hty]
      rfl
    · simp only [MethodSig.field, MethodSig.funcType, methodStateFields]
      simp [hlog, hargs, hbox, hty]
      exact ⟨rfl, rfl, rfl⟩
    · simp

theorem sourceFileStep_field (structName : String) (acc : List Decl) (m : MethodSig) :
    ∃ ds, sourceFileStep structName acc m.field = .ok (acc ++ ds) ∧
      ds.map Except.ok = methodDecls structName m ∧
      ds.length = if m.results.isSome then 4 else 3 := by
  obtain ⟨name, ps, rs⟩ := m
  obtain ⟨impl, himpl⟩ : ∃ d, methodImplementationDecl structName (methodField name ps rs) =
      .ok d := ⟨_, methodImplementationDecl_methodField structName name ps rs⟩
  obtain ⟨counter, hcount⟩ : ∃ d, methodCallCountGetterDecl structName
      (methodField name ps rs) = .ok d :=
    ⟨_, methodCallCountGetterDecl_methodField structName name ps rs⟩
  obtain ⟨getter, hargs⟩ : ∃ d, methodCallArgsGetterDecl structName
      (methodField name ps rs) = .ok d :=
    ⟨_, methodCallArgsGetterDecl_methodField structName name ps rs⟩
  cases rs with
  | none =>
    refine ⟨[Decl.FuncDecl impl, Decl.FuncDecl counter, Decl.FuncDecl getter], ?_, ?_, ?_⟩
    · simp only [MethodSig.field, sourceFileStep, himpl, hcount, hargs]
      simp [methodField, assertFuncType]
      rfl
    · simp only [MethodSig.field, methodDecls, himpl, hcount, hargs]
      simp
    · simp
  | some results =>
    obtain ⟨setter, hset⟩ : ∃ d, methodReturnsSetterDecl structName
        (methodField name ps (some results)) = .ok d :=
      ⟨_, methodReturnsSetterDecl_methodField structName name ps results⟩
    refine ⟨[Decl.FuncDecl impl, Decl.FuncDecl counter, Decl.FuncDecl getter,
      Decl.FuncDecl setter], ?_, ?_, ?_⟩
    · simp only [MethodSig.field, sourceFileStep, himpl, hcount, hargs, hset]
      simp [methodField, assertFuncType]
      rfl
    · simp only [MethodSig.field, methodDecls, himpl, hcount, hargs, hset]
      simp
    · simp

/-! ## Layout of the generated file and of the fake type -/

/-- Layout of the file by the test the source makes: on every interface whose
entries are methods, `sourceFile` returns a file whose declarations are
the import declaration, the fake type declaration, and then for each method in
its original order its implementation, its call-count accessor, its call-args
accessor and, when the result list is present (`Results != nil`, be it
empty), its returns setter; so there are
`2 + Σ (3, or 4 with a result list)` declarations. -/
theorem sourceFile_declarations (structName packageName : String) (ms : List MethodSig) :
    ∃ file, sourceFile structName packageName (interfaceOf ms) = .ok file ∧
      file.name = packageName ∧
      file.decls.map Except.ok =
        Except.ok importsDecl :: typeDecl structName (interfaceOf ms) ::
          ms.flatMap (methodDecls structName) ∧
      file.decls.length = 2 + (ms.map fun m => if m.results.isSome then 4 else 3).sum := by
  obtain ⟨fields, htype, -, -⟩ := foldlM_append_steps typeDeclStep MethodSig.field Except.ok
    methodStateFields (fun m => if m.results.isSome then 3 else 2) typeDeclStep_field ms
    [Field.mk [] (Expr.SelectorExpr (Expr.Ident "sync") "RWMutex")]
  obtain ⟨types, htd⟩ : ∃ types, typeDecl structName (interfaceOf ms) = .ok types := by
    refine ⟨Decl.GenDecl Token.TYPE [Spec.TypeSpec structName (Expr.StructType
      ([Field.mk [] (Expr.SelectorExpr (Expr.Ident "sync") "RWMutex")] ++ fields))], ?_⟩
    simp only [typeDecl, interfaceOf, derefList]
    show (do let fs ← List.foldlM typeDeclStep _ (ms.map MethodSig.field); _) = _
    rw [htype]
    rfl
  obtain ⟨decls, hfold, hlisted, hlen⟩ := foldlM_append_steps (sourceFileStep structName)
    MethodSig.field Except.ok (methodDecls structName)
    (fun m => if m.results.isSome then 4 else 3) (sourceFileStep_field structName) ms
    [importsDecl, types]
  refine ⟨⟨packageName, [importsDecl, types] ++ decls⟩, ?_, rfl, ?_, ?_⟩
  · simp only [sourceFile]
    rw [htd]
    show (do let ds ← List.foldlM (sourceFileStep structName) _ (ms.map MethodSig.field); _) = _
    rw [hfold]
    rfl
  · rw [htd]
    simp [hlisted]
  · simp [hlen]
    omega

/-- Layout of the struct by the test the source makes: on every interface
whose entries are methods, the struct built by `typeDecl` has as first field
the anonymous guard of type `sync.RWMutex`, followed for each method in
original order by the field `<Method>Stub` of the method's own function type,
the call-log field whose type is a slice of `argsStructTypeForMethod` of the
method and, when the result list is present (`Results != nil`, be it empty),
the return-box field of type `returnStructTypeForMethod`; so it has
`1 + Σ (2, or 3 with a result list)` fields. -/
theorem typeDecl_fields (structName : String) (ms : List MethodSig) :
    ∃ fields, typeDecl structName (interfaceOf ms) =
        .ok (Decl.GenDecl Token.TYPE [Spec.TypeSpec structName (Expr.StructType fields)]) ∧
      fields.map Except.ok =
        Except.ok (Field.mk [] (Expr.SelectorExpr (Expr.Ident "sync") "RWMutex")) ::
          ms.flatMap methodStateFields ∧
      fields.length = 1 + (ms.map fun m => if m.results.isSome then 3 else 2).sum := by
  obtain ⟨fields, htype, hlisted, hlen⟩ := foldlM_append_steps typeDeclStep MethodSig.field
    Except.ok methodStateFields (fun m => if m.results.isSome then 3 else 2)
    typeDeclStep_field ms [Field.mk [] (Expr.SelectorExpr (Expr.Ident "sync") "RWMutex")]
  refine ⟨[Field.mk [] (Expr.SelectorExpr (Expr.Ident "sync") "RWMutex")] ++ fields,
    ?_, ?_, ?_⟩
  · simp only [typeDecl, interfaceOf, derefList]
    show (do let fs ← List.foldlM typeDeclStep _ (ms.map MethodSig.field); _) = _
    rw [htype]
    rfl
  · simp [hlisted]
  · simp [hlen]
    omega

/-! ## Signature of the generated implementation -/

theorem enum_map_fst_comp {α β : Type} (g : Nat → β) (l : List α) :
    (l.enum.map fun p => g p.1) = (List.range l.length).map g := by
  rw [← List.enum_map_fst l, List.map_map]
  rfl

theorem ellipsisPos_last_variadic (init : List Field) (ns : List String) (elt : Expr) :
    (init ++ [Field.mk ns (Expr.Ellipsis elt)]).enum.foldl
      (fun e p => if isEllipsis p.2.typ then p.1 else e) 0 = init.length := by
  simp [List.enum_append, List.foldl_append, List.enumFrom_cons, isEllipsis]

theorem ellipsisPos_no_variadic (l : List (Nat × Field)) (e : Nat)
    (h : ∀ p ∈ l, isEllipsis p.2.typ = false) :
    l.foldl (fun e p => if isEllipsis p.2.typ then p.1 else e) e = e := by
  induction l with
  | nil => rfl
  | cons p l ih =>
    have hp : isEllipsis p.2.typ = false := h p (List.mem_cons_self _ _)
    simp only [List.foldl_cons, hp]
    exact ih fun q hq => h q (List.mem_cons_of_mem _ hq)

theorem stubHookCall_methodField (structName name : String) (ps : List Field)
    (rs : Option (List Field)) :
    ∃ d, methodImplementationDecl structName (methodField name ps rs) = .ok d ∧
      stubHookCall d = some
        (Expr.CallExpr (Expr.SelectorExpr receiverIdent (name ++ "Stub"))
          (ps.enum.map fun p => Expr.Ident (nameForMethodParam p.1))
          (ps.enum.foldl (fun e p => if isEllipsis p.2.typ then p.1 else e) 0)) := by
  refine ⟨_, methodImplementationDecl_methodField structName name ps rs, ?_⟩
  cases rs <;> rfl

/-- Extent of the spread marking: when the last parameter is variadic the
stub call carries the index of that parameter as its `Ellipsis` position, so
the call is a spread exactly when some parameter precedes the variadic one. -/
theorem stubHookCall_last_variadic (structName name : String) (init : List Field)
    (ns : List String) (elt : Expr) (rs : Option (List Field)) :
    ∃ d call, methodImplementationDecl structName
        (methodField name (init ++ [Field.mk ns (Expr.Ellipsis elt)]) rs) = .ok d ∧
      stubHookCall d = some call ∧
      isSpreadCall call = !init.isEmpty := by
  obtain ⟨d, hd, hcall⟩ := stubHookCall_methodField structName name
    (init ++ [Field.mk ns (Expr.Ellipsis elt)]) rs
  refine ⟨d, _, hd, hcall, ?_⟩
  simp only [isSpreadCall, ellipsisPos_last_variadic, posIsValid]
  cases init <;> simp

/-- A method without variadic parameter gets a stub call that is no spread. -/
theorem stubHookCall_no_variadic (structName name : String) (ps : List Field)
    (rs : Option (List Field)) (h : ∀ f ∈ ps, isEllipsis f.typ = false) :
    ∃ d call, methodImplementationDecl structName (methodField name ps rs) = .ok d ∧
      stubHookCall d = some call ∧ isSpreadCall call = false := by
  obtain ⟨d, hd, hcall⟩ := stubHookCall_methodField structName name ps rs
  refine ⟨d, _, hd, hcall, ?_⟩
  have h0 := ellipsisPos_no_variadic ps.enum 0 (by
    intro p hp
    obtain ⟨i, a⟩ := p
    obtain ⟨hi, ha⟩ := List.mem_enum hp
    exact h a (ha ▸ List.getElem_mem hi))
  simp only [isSpreadCall, h0]
  rfl

/-- C2, evaluated at `Add(a, b int) int`: the method declares two parameters,
and the implementation generated for it declares the single parameter
`arg1 int` (with the result list kept). -/
theorem implementation_of_grouped_params :
    numFields [Field.mk ["a", "b"] (Expr.Ident "int")] = 2 ∧
    (methodImplementationDecl "Fake" addMethod).toOption.map (fun d => (d.name, d.typ)) =
      some ("Add",
        { params := some [Field.mk ["arg1"] (Expr.Ident "int")]
          results := some [Field.mk [] (Expr.Ident "int")] }) ∧
    ((methodImplementationDecl "Fake" addMethod).toOption.map
      fun d => d.typ.params.map numFields) = some (some 1) :=
  ⟨by decide, rfl, by decide⟩

/-- C3, evaluated at `Log(args ...string)`, whose only parameter is variadic:
the stub call is `fake.LogStub(arg1)` with `Ellipsis` position `0`
(`token.NoPos`), so it is not a spread; for `Logf(format string, args
...string)` the call is a spread. -/
theorem stubCall_of_sole_variadic :
    (methodImplementationDecl "Fake" logMethod).toOption.bind stubHookCall =
      some (Expr.CallExpr (Expr.SelectorExpr (Expr.Ident "fake") "LogStub")
        [Expr.Ident "arg1"] 0) ∧
    ((methodImplementationDecl "Fake" logMethod).toOption.bind stubHookCall).map isSpreadCall =
      some false ∧
    ((methodImplementationDecl "Fake" logfMethod).toOption.bind stubHookCall).map
      isSpreadCall = some true :=
  ⟨rfl, by decide, by decide⟩

/-- C4, evaluated at the interface with the one method `Close() ()`, whose
result list is present but empty: the method declares no result, and still
the file holds the setter `CloseReturns` and the struct holds the return-box
field `closeReturns`. -/
theorem setter_and_box_of_empty_result_list :
    closeSig.results.map numFields = some 0 ∧
    ((sourceFile "FakeCloser" "fakes" (interfaceOf [closeSig])).toOption.map
      fun file => file.decls.map funcDeclName) =
      some [none, none, some "Close", some "CloseCallCount", some "CloseArgsForCall",
        some "CloseReturns"] ∧
    (typeDecl "FakeCloser" (interfaceOf [closeSig])).toOption.map structFieldNames =
      some [[], ["CloseStub"], ["closeArgsForCall"], ["closeReturns"]] :=
  ⟨by decide, by decide, by decide⟩

/-- C7, evaluated at `Pair() (a, b int)`: the method declares two results,
while the return box has the single field `result1`, the returns setter the
single parameter `result1`, and the non-stub branch of the implementation,
whose result list is still `(a, b int)`, returns the single value
`fake.pairReturns.result1`. -/
theorem return_box_of_grouped_results :
    pairSig.results.map numFields = some 2 ∧
    returnStructTypeForMethod pairSig.funcType =
      .ok (Expr.StructType [Field.mk ["result1"] (Expr.Ident "int")]) ∧
    ((methodReturnsSetterDecl "Fake" pairSig.field).toOption.map fun d => d.typ.params) =
      some (some [Field.mk ["result1"] (Expr.Ident "int")]) ∧
    (methodImplementationDecl "Fake" pairSig.field).toOption.bind elseReturnValues =
      some [Expr.SelectorExpr (Expr.SelectorExpr (Expr.Ident "fake") "pairReturns")
        "result1"] ∧
    ((methodImplementationDecl "Fake" pairSig.field).toOption.map fun d => d.typ.results) =
      some (some [Field.mk ["a", "b"] (Expr.Ident "int")]) :=
  ⟨by decide, rfl, rfl, rfl, rfl⟩

/-! ## Argument records, call log and accessors -/

/-- Fields of the argument record, entry by entry: `argsStructTypeForMethod`
yields one field per entry of `Params.List` (a group of several names is one
entry), in order, the `i`-th (0-based) named `arg(i+1)` and typed
`storedTypeForType` of the entry's type: the type unchanged when the entry is
not variadic, a slice (array type without length) of the element type when it
is. -/
theorem argsStructTypeForMethod_fields (ps : List Field) (rs : Option (List Field)) :
    ∃ fields, argsStructTypeForMethod { params := some ps, results := rs } =
        .ok (Expr.StructType fields) ∧
      fields.length = ps.length ∧
      (∀ i, fields[i]? = ps[i]?.map fun f =>
        Field.mk ["arg" ++ toString (i + 1)] (storedTypeForType f.typ)) ∧
      (∀ elt, storedTypeForType (Expr.Ellipsis elt) = Expr.ArrayType none elt) ∧
      (∀ t, isEllipsis t = false → storedTypeForType t = t) := by
  refine ⟨_, argsStructTypeForMethod_some ps rs, by simp, ?_, fun _ => rfl, ?_⟩
  · intro i
    simp only [List.getElem?_map, List.getElem?_enum]
    cases ps[i]? <;> rfl
  · intro t ht
    cases t <;> first | rfl | simp [isEllipsis] at ht

/-- The argument record at the parameters `(format string, args ...string)`:
it has the fields `arg1 string` and `arg2 []string`. -/
theorem argsStructTypeForMethod_fields_witness :
    argsStructTypeForMethod
        { params := some [Field.mk ["format"] (Expr.Ident "string"),
            Field.mk ["args"] (Expr.Ellipsis (Expr.Ident "string"))]
          results := none } =
      .ok (Expr.StructType [Field.mk ["arg1"] (Expr.Ident "string"),
        Field.mk ["arg2"] (Expr.ArrayType none (Expr.Ident "string"))]) ∧
    storedTypeForType (Expr.Ident "string") = Expr.Ident "string" := by
  obtain ⟨fields, hok, hlen, hget, -, hid⟩ := argsStructTypeForMethod_fields
    [Field.mk ["format"] (Expr.Ident "string"),
      Field.mk ["args"] (Expr.Ellipsis (Expr.Ident "string"))] none
  exact ⟨rfl, hid (Expr.Ident "string") rfl⟩

/-- C8: for every method, the body of the generated implementation is the
lock call, the deferred unlock, one assignment of
`append(callLog, record)` back to the same call-log field, where `record` is
a literal of the method's argument record holding `arg1 .. argN` in order,
and last the branch statement on `<Method>Stub != nil`; the assignment is the
only statement of the body, at any depth, that appends to the call log. -/
theorem implementation_appends_once (structName name : String) (ps : List Field)
    (rs : Option (List Field)) :
    ∃ d logName record thenBody els,
      methodImplementationDecl structName (methodField name ps rs) = .ok d ∧
      callArgsFieldName (methodField name ps rs) = .ok logName ∧
      argsStructTypeForMethod { params := some ps, results := rs } = .ok record ∧
      d.body =
        [ Stmt.ExprStmt (Expr.CallExpr (Expr.SelectorExpr receiverIdent "Lock") [] 0),
          Stmt.DeferStmt (Expr.CallExpr (Expr.SelectorExpr receiverIdent "Unlock") [] 0),
          Stmt.AssignStmt [Expr.SelectorExpr receiverIdent logName] Token.ASSIGN
            [Expr.CallExpr (Expr.Ident "append")
              [ Expr.SelectorExpr receiverIdent logName,
                Expr.CompositeLit record
                  ((List.range ps.length).map fun i => Expr.Ident (nameForMethodParam i)) ]
              0],
          Stmt.IfStmt
            (Expr.BinaryExpr (Expr.SelectorExpr receiverIdent (name ++ "Stub")) Token.NEQ
              (Expr.BasicLit Token.STRING "nil"))
            thenBody els ] ∧
      d.body.getLast? = some (Stmt.IfStmt
        (Expr.BinaryExpr (Expr.SelectorExpr receiverIdent (name ++ "Stub")) Token.NEQ
          (Expr.BasicLit Token.STRING "nil"))
        thenBody els) ∧
      appendCountList logName d.body = 1 := by
  have himpl := methodImplementationDecl_methodField structName name ps rs
  have hargs := enum_map_fst_comp (fun i => Expr.Ident (nameForMethodParam i)) ps
  rw [hargs] at himpl
  cases rs with
  | none =>
    refine ⟨_, _, _, ?thenBody, ?els, himpl, callArgsFieldName_methodField name ps none,
      argsStructTypeForMethod_some ps none, ?hbody, ?hlast, ?hcount⟩
    case hbody => exact rfl
    case hlast => exact rfl
    case hcount => simp [appendCountList, appendCount, appendCountOpt]
  | some results =>
    refine ⟨_, _, _, ?thenBodyS, ?elsS, himpl,
      callArgsFieldName_methodField name ps (some results),
      argsStructTypeForMethod_some ps (some results), ?hbodyS, ?hlastS, ?hcountS⟩
    case hbodyS => exact rfl
    case hlastS => exact rfl
    case hcountS => simp [appendCountList, appendCount, appendCountOpt]

/-- Last statement by the test the source makes: the last statement of the
generated implementation is an `if` on `<Method>Stub != nil`.  When the result
list is present (`Results != nil`, be it empty) the then-branch returns the
stub call applied to `arg1 .. argN` and the else-branch returns the fields
`result1 .. resultK` of the return-box field, one per entry of `Results.List`,
in order; when it is absent the then-branch is only the stub call as a
statement, there is no else-branch, and the three statements before the `if`
are no return statements either. -/
theorem implementation_last_statement (structName name : String) (ps : List Field)
    (rs : Option (List Field)) :
    ∃ d boxName ellipsis lock unlock lhs rhs,
      methodImplementationDecl structName (methodField name ps rs) = .ok d ∧
      returnStructFieldName (methodField name ps rs) = .ok boxName ∧
      d.body.getLast? = some
        (match rs with
        | some results =>
          Stmt.IfStmt
            (Expr.BinaryExpr (Expr.SelectorExpr receiverIdent (name ++ "Stub")) Token.NEQ
              (Expr.BasicLit Token.STRING "nil"))
            [Stmt.ReturnStmt
              [Expr.CallExpr (Expr.SelectorExpr receiverIdent (name ++ "Stub"))
                ((List.range ps.length).map fun i => Expr.Ident (nameForMethodParam i))
                ellipsis]]
            (some (Stmt.BlockStmt [Stmt.ReturnStmt
              ((List.range results.length).map fun k =>
                Expr.SelectorExpr (Expr.SelectorExpr receiverIdent boxName)
                  (nameForMethodResult k))]))
        | none =>
          Stmt.IfStmt
            (Expr.BinaryExpr (Expr.SelectorExpr receiverIdent (name ++ "Stub")) Token.NEQ
              (Expr.BasicLit Token.STRING "nil"))
            [Stmt.ExprStmt
              (Expr.CallExpr (Expr.SelectorExpr receiverIdent (name ++ "Stub"))
                ((List.range ps.length).map fun i => Expr.Ident (nameForMethodParam i))
                ellipsis)]
            none) ∧
      d.body.dropLast =
        [Stmt.ExprStmt lock, Stmt.DeferStmt unlock, Stmt.AssignStmt lhs Token.ASSIGN rhs] := by
  have himpl := methodImplementationDecl_methodField structName name ps rs
  have hargs := enum_map_fst_comp (fun i => Expr.Ident (nameForMethodParam i)) ps
  rw [hargs] at himpl
  cases rs with
  | none =>
    refine ⟨_, _, ?ellipsisS, ?lockS, ?unlockS, ?lhsS, ?rhsS, himpl,
      returnStructFieldName_methodField name ps none, ?hlastS, ?hrestS⟩
    case hlastS => exact rfl
    case hrestS => exact rfl
  | some results =>
    have hres := enum_map_fst_comp (fun k =>
      Expr.SelectorExpr (Expr.SelectorExpr receiverIdent (lowerFirst (name ++ "Returns")))
        (nameForMethodResult k)) results
    dsimp only at himpl
    rw [hres] at himpl
    refine ⟨_, _, ?ellipsisS, ?lockS, ?unlockS, ?lhsS, ?rhsS, himpl,
      returnStructFieldName_methodField name ps (some results), ?hlastS, ?hrestS⟩
    case hlastS => exact rfl
    case hrestS => exact rfl

/-- C10: for every method, the accessor built by `methodCallCountGetterDecl`
is named `<Method>CallCount`, has no parameter list, has the single result
type `int`, and returns `len` applied to the call-log field named
`callArgsFieldName` of the method, the field that the third statement of the
generated implementation of the same method assigns the `append` to. -/
theorem callCountGetter_reads_call_log (structName name : String) (ps : List Field)
    (rs : Option (List Field)) :
    ∃ counter impl logName record,
      methodCallCountGetterDecl structName (methodField name ps rs) = .ok counter ∧
      methodImplementationDecl structName (methodField name ps rs) = .ok impl ∧
      callArgsFieldName (methodField name ps rs) = .ok logName ∧
      counter.name = name ++ "CallCount" ∧
      counter.typ.params = none ∧
      counter.typ.results = some [Field.mk [] (Expr.Ident "int")] ∧
      counter.body =
        [ Stmt.ExprStmt (Expr.CallExpr (Expr.SelectorExpr receiverIdent "RLock") [] 0),
          Stmt.DeferStmt (Expr.CallExpr (Expr.SelectorExpr receiverIdent "RUnlock") [] 0),
          Stmt.ReturnStmt
            [Expr.CallExpr (Expr.Ident "len") [Expr.SelectorExpr receiverIdent logName] 0] ] ∧
      impl.body[2]? = some
        (Stmt.AssignStmt [Expr.SelectorExpr receiverIdent logName] Token.ASSIGN
          [Expr.CallExpr (Expr.Ident "append")
            [Expr.SelectorExpr receiverIdent logName, record] 0]) := by
  refine ⟨_, _, _, ?record, methodCallCountGetterDecl_methodField structName name ps rs,
    methodImplementationDecl_methodField structName name ps rs,
    callArgsFieldName_methodField name ps rs, rfl, rfl, rfl, rfl, ?happend⟩
  case happend => exact rfl


/-! ## Call-args accessor and returns setter -/

/-- The call-args accessor, entry by entry: for the entries `p_1 .. p_n` of
`Params.List` (a group of several names is one entry), the accessor built by
`methodCallArgsGetterDecl` is named `<Method>ArgsForCall`, takes exactly the
parameter `i int`, declares `n` results whose `k`-th type is
`storedTypeForType` of the type of `p_k`, and returns exactly the `n`
expressions `callLog[i].arg1 .. callLog[i].argn` in order; the `k`-th
expression selects the name of the `k`-th field of `argsStructTypeForMethod`
of the method, whose type is the `k`-th result type. -/
theorem callArgsGetter_returns_record_fields (structName name : String) (ps : List Field)
    (rs : Option (List Field)) :
    ∃ getter logName fields results values,
      methodCallArgsGetterDecl structName (methodField name ps rs) = .ok getter ∧
      callArgsFieldName (methodField name ps rs) = .ok logName ∧
      argsStructTypeForMethod { params := some ps, results := rs } =
        .ok (Expr.StructType fields) ∧
      getter.name = name ++ "ArgsForCall" ∧
      getter.typ.params = some [Field.mk ["i"] (Expr.Ident "int")] ∧
      getter.typ.results = some results ∧
      getter.body.getLast? = some (Stmt.ReturnStmt values) ∧
      results.length = ps.length ∧ values.length = ps.length ∧ fields.length = ps.length ∧
      (∀ k : Nat, results[k]? = ps[k]?.map fun (p : Field) =>
        Field.mk [] (storedTypeForType p.typ)) ∧
      (∀ k : Nat, values[k]? = ps[k]?.map fun _ =>
        Expr.SelectorExpr
          (Expr.IndexExpr (Expr.SelectorExpr receiverIdent logName) (Expr.Ident "i"))
          (nameForMethodParam k)) ∧
      (∀ k : Nat, fields[k]? = ps[k]?.map fun (p : Field) =>
        Field.mk [nameForMethodParam k] (storedTypeForType p.typ)) := by
  refine ⟨_, _, _, _, _, methodCallArgsGetterDecl_methodField structName name ps rs,
    callArgsFieldName_methodField name ps rs, argsStructTypeForMethod_some ps rs,
    rfl, rfl, rfl, rfl, by simp, by simp, by simp, ?_, ?_, ?_⟩
  · intro k
    simp only [List.getElem?_map, List.getElem?_enum]
    cases ps[k]? <;> rfl
  · intro k
    simp only [List.getElem?_map, List.getElem?_enum]
    cases ps[k]? <;> rfl
  · intro k
    simp only [List.getElem?_map, List.getElem?_enum]
    cases ps[k]? <;> rfl

theorem exprListCalls_map_nil {α : Type} (f : α → Expr) (h : ∀ a, exprCalls (f a) = [])
    (l : List α) : exprListCalls (l.map f) = [] := by
  induction l with
  | nil => rfl
  | cons a l ih => simp [exprListCalls, h, ih]

/-- C18: for every method with a result list, the body of the setter built by
`methodReturnsSetterDecl` is exactly one statement: the assignment, to the
return-box field `returnStructFieldName` of the receiver `fake`, of a literal
of type `returnStructTypeForMethod` whose elements are the setter's own
parameters `result1`, `result2`, .. `resultK` in order (the `k`-th, counted
from 0, is named `result` followed by the decimal `k + 1`, and so is the
`k`-th field of the literal's type); that field is the one whose
`result1 .. resultK` the else-branch of the implementation returns; the body
calls nothing, so neither `Lock`, `Unlock`, `RLock` nor `RUnlock`. -/
theorem returnsSetter_body (structName name : String) (ps results : List Field) :
    ∃ setter impl boxName boxType,
      methodReturnsSetterDecl structName (methodField name ps (some results)) = .ok setter ∧
      methodImplementationDecl structName (methodField name ps (some results)) = .ok impl ∧
      returnStructFieldName (methodField name ps (some results)) = .ok boxName ∧
      returnStructTypeForMethod { params := some ps, results := some results } = .ok boxType ∧
      boxType = Expr.StructType (results.enum.map fun p =>
        Field.mk ["result" ++ toString (p.1 + 1)] p.2.typ) ∧
      setter.recv = [Field.mk ["fake"] (Expr.StarExpr (Expr.Ident structName))] ∧
      setter.typ.params = some (results.enum.map fun p =>
        Field.mk ["result" ++ toString (p.1 + 1)] p.2.typ) ∧
      setter.body =
        [Stmt.AssignStmt [Expr.SelectorExpr (Expr.Ident "fake") boxName] Token.ASSIGN
          [Expr.CompositeLit boxType
            ((List.range results.length).map fun k =>
              Expr.Ident ("result" ++ toString (k + 1)))]] ∧
      elseReturnValues impl = some ((List.range results.length).map fun k =>
        Expr.SelectorExpr (Expr.SelectorExpr (Expr.Ident "fake") boxName)
          ("result" ++ toString (k + 1))) ∧
      stmtListCalls setter.body = [] ∧
      "result" ++ toString (0 + 1) = "result1" ∧ "result" ++ toString (1 + 1) = "result2" := by
  have hset := methodReturnsSetterDecl_methodField structName name ps results
  have himpl := methodImplementationDecl_methodField structName name ps (some results)
  have hids := enum_map_fst_comp (fun k => Expr.Ident (nameForMethodResult k)) results
  have hsel := enum_map_fst_comp (fun k =>
    Expr.SelectorExpr (Expr.SelectorExpr receiverIdent (lowerFirst (name ++ "Returns")))
      (nameForMethodResult k)) results
  dsimp only at himpl
  rw [hids] at hset
  rw [hsel] at himpl
  refine ⟨_, _, _, _, hset, himpl, returnStructFieldName_methodField name ps (some results),
    returnStructTypeForMethod_some (some ps) results, rfl, rfl, rfl, rfl, rfl, ?_,
    by decide, by decide⟩
  simp [stmtListCalls, stmtCalls, exprListCalls, exprCalls, receiverIdent,
    exprListCalls_map_nil]

/-! ## Locking -/

/-- The lock calls as written: the generated implementation begins with the
call `fake.Lock()` followed immediately by `defer fake.Unlock()`, and the rest
of its body, which holds the stub call, calls only `append` and the stub; both
accessors begin with `fake.RLock()` followed immediately by
`defer fake.RUnlock()`, and besides these two the call-count accessor calls
only `len` and the call-args accessor calls nothing.  Which method a selector
`fake.Lock` denotes depends on the methods the file declares on the fake. -/
theorem lock_discipline (structName name : String) (ps : List Field)
    (rs : Option (List Field)) :
    ∃ impl counter getter implRest counterRest getterRest,
      methodImplementationDecl structName (methodField name ps rs) = .ok impl ∧
      methodCallCountGetterDecl structName (methodField name ps rs) = .ok counter ∧
      methodCallArgsGetterDecl structName (methodField name ps rs) = .ok getter ∧
      impl.body =
        Stmt.ExprStmt (Expr.CallExpr (Expr.SelectorExpr receiverIdent "Lock") [] 0) ::
        Stmt.DeferStmt (Expr.CallExpr (Expr.SelectorExpr receiverIdent "Unlock") [] 0) ::
        implRest ∧
      stmtListCalls implRest = ["append", name ++ "Stub"] ∧
      counter.body =
        Stmt.ExprStmt (Expr.CallExpr (Expr.SelectorExpr receiverIdent "RLock") [] 0) ::
        Stmt.DeferStmt (Expr.CallExpr (Expr.SelectorExpr receiverIdent "RUnlock") [] 0) ::
        counterRest ∧
      stmtListCalls counterRest = ["len"] ∧
      getter.body =
        Stmt.ExprStmt (Expr.CallExpr (Expr.SelectorExpr receiverIdent "RLock") [] 0) ::
        Stmt.DeferStmt (Expr.CallExpr (Expr.SelectorExpr receiverIdent "RUnlock") [] 0) ::
        getterRest ∧
      stmtListCalls getterRest = [] := by
  have himpl := methodImplementationDecl_methodField structName name ps rs
  refine ⟨_, _, _, ?implRest, ?counterRest, ?getterRest, himpl,
    methodCallCountGetterDecl_methodField structName name ps rs,
    methodCallArgsGetterDecl_methodField structName name ps rs, ?h1, ?h2, ?h3, ?h4, ?h5, ?h6⟩
  case h1 => exact rfl
  case h3 => exact rfl
  case h5 => exact rfl
  case h2 =>
    cases rs <;>
      simp [stmtListCalls, stmtCalls, stmtOptCalls, exprListCalls, exprCalls, receiverIdent,
        nilCheck, exprListCalls_map_nil]
  case h4 => rfl
  case h6 =>
    simp [stmtListCalls, stmtCalls, exprListCalls, exprCalls, receiverIdent,
      exprListCalls_map_nil]

/-! ## Failure of the construction and of the serialisation -/

/-- C13, evaluated at `interface { Stringer; Close() }`: the entry that embeds
`Stringer` has an identifier as type, and `sourceFile` stops with the failed
type assertion `method.Type.(*ast.FuncType)`; on an entry with a function type
and no name it stops with an index out of range at `method.Names[0]`. -/
theorem sourceFile_of_embedded_interface :
    sourceFile "Fake" "fakes" embeddingInterface = .error GoPanic.typeAssertion ∧
    sourceFile "Fake" "fakes" unnamedEntryInterface = .error GoPanic.indexOutOfRange :=
  ⟨rfl, rfl⟩

/-- C14: for every input, the error returned by `GenerateFake` is the error
returned by the serialisation of the result of `sourceFile`, unchanged (and
`GenerateFake` stops exactly when `sourceFile` does); in particular the error
is nil whenever the serialisation returns nil. -/
theorem GenerateFake_error {ε : Type} (fprint : File → String × Option ε)
    (structName packageName : String) (interfaceNode : InterfaceType) :
    (GenerateFake fprint structName packageName interfaceNode).map Prod.snd =
      (sourceFile structName packageName interfaceNode).map (fun file => (fprint file).2) ∧
    ∀ file, sourceFile structName packageName interfaceNode = .ok file →
      (fprint file).2 = none →
      ∃ text, GenerateFake fprint structName packageName interfaceNode = .ok (text, none) := by
  unfold GenerateFake
  constructor
  · cases sourceFile structName packageName interfaceNode <;> rfl
  · intro file hfile hnil
    rw [hfile]
    exact ⟨prettifyCode (fprint file).1, by rw [← hnil]; rfl⟩

/-- Witness of C14 at the interface with the method `Greet` and a serialiser
that writes a text and returns nil. -/
theorem GenerateFake_error_witness :
    ∃ text, GenerateFake (fun _ => ("package fakes\n", (none : Option String))) "Fake" "fakes"
      (interfaceOf [greetSig]) = .ok (text, none) := by
  obtain ⟨file, hfile, -⟩ := sourceFile_declarations "Fake" "fakes" [greetSig]
  exact (GenerateFake_error (fun _ => ("package fakes\n", (none : Option String))) "Fake"
    "fakes" (interfaceOf [greetSig])).2 file hfile rfl

/-- C15, counterexample: with a serialiser that writes `package fakes` and then
fails, `GenerateFake` returns the error together with the non-empty text
written so far. -/
theorem GenerateFake_partial_output :
    GenerateFake failingFprint "Fake" "fakes" (interfaceOf [stopSig]) =
      .ok ("package fakes\n", some "short write") ∧
    "package fakes\n" ≠ "" :=
  ⟨rfl, by decide⟩

/-- C15, amended: whatever the serialisation returns, error or not, the text
returned by `GenerateFake` is `prettifyCode` of the text the serialiser wrote
into the buffer. -/
theorem GenerateFake_text {ε : Type} (fprint : File → String × Option ε)
    (structName packageName : String) (interfaceNode : InterfaceType) :
    (GenerateFake fprint structName packageName interfaceNode).map Prod.fst =
      (sourceFile structName packageName interfaceNode).map
        (fun file => prettifyCode (fprint file).1) := by
  unfold GenerateFake
  cases sourceFile structName packageName interfaceNode <;> rfl


/-! ## Distinctness of the derived names -/

theorem isUpper_toNat (c : Char) (h : c.isUpper = true) : 65 ≤ c.toNat ∧ c.toNat ≤ 90 := by
  simp only [Char.isUpper, Bool.and_eq_true, decide_eq_true_eq, ge_iff_le] at h
  exact ⟨h.1, h.2⟩

theorem isLower_toNat (c : Char) (h : c.isLower = true) : 97 ≤ c.toNat ∧ c.toNat ≤ 122 := by
  simp only [Char.isLower, Bool.and_eq_true, decide_eq_true_eq, ge_iff_le] at h
  exact ⟨h.1, h.2⟩

theorem toLower_eq_of_isLower (c : Char) (h : c.isLower = true) : c.toLower = c := by
  have hn := isLower_toNat c h
  unfold Char.toLower
  simp only
  rw [if_neg (by omega)]

theorem toLower_ne_of_isUpper (c : Char) (h : c.isUpper = true) : c.toLower ≠ c := by
  have hn := isUpper_toNat c h
  have hc : c = Char.ofNat c.toNat := (Char.ofNat_toNat c).symm
  generalize c.toNat = n at hn hc
  subst hc
  obtain ⟨h1, h2⟩ := hn
  interval_cases n <;> decide

theorem lowerFirst_append_data (name s : String) (c : Char) (cs : List Char)
    (hname : name.data = c :: cs) :
    (lowerFirst (name ++ s)).data = c.toLower :: (cs ++ s.data) := by
  simp [lowerFirst, String.data_append, hname]

/-- C19: for every method name that begins with an upper-case ASCII letter,
the seven names derived from it are pairwise distinct: the name itself,
`<Name>Stub`, `<Name>CallCount`, `<Name>ArgsForCall`, `<Name>Returns`, the
call-log field name `privatize(<Name>ArgsForCall)` and the return-box field
name `privatize(<Name>Returns)`; and for a name that begins with a lower-case
ASCII letter the call-log field name equals the call-args accessor name. -/
theorem derived_names_distinct (name : String) (c : Char) (cs : List Char) (ps : List Field)
    (rs : Option (List Field)) (hname : name.data = c :: cs) :
    (c.isUpper = true →
      ∃ stub count args returns log box,
        index0 (methodField name ps rs).names = .ok name ∧
        methodStubFuncName (methodField name ps rs) = .ok stub ∧
        callCountMethodName (methodField name ps rs) = .ok count ∧
        callArgsMethodName (methodField name ps rs) = .ok args ∧
        returnSetterMethodName (methodField name ps rs) = .ok returns ∧
        callArgsFieldName (methodField name ps rs) = .ok log ∧
        returnStructFieldName (methodField name ps rs) = .ok box ∧
        [name, stub, count, args, returns, log, box].Nodup) ∧
    (c.isLower = true →
      callArgsFieldName (methodField name ps rs) =
        callArgsMethodName (methodField name ps rs)) := by
  constructor
  · intro hupper
    refine ⟨_, _, _, _, _, _, rfl, rfl, rfl, rfl, rfl, callArgsFieldName_methodField name ps rs,
      returnStructFieldName_methodField name ps rs, ?_⟩
    have hne := toLower_ne_of_isUpper c hupper
    have hlog := lowerFirst_append_data name "ArgsForCall" c cs hname
    have hbox := lowerFirst_append_data name "Returns" c cs hname
    simp [String.ext_iff, String.data_append, hname, hlog, hbox, hne, Ne.symm hne]
  · intro hlower
    rw [callArgsFieldName_methodField, callArgsMethodName_methodField]
    congr 1
    apply String.ext
    rw [lowerFirst_append_data name "ArgsForCall" c cs hname, toLower_eq_of_isLower c hlower]
    simp [String.data_append, hname]

/-- Witness of C19 at the names `Greet` and `greet`. -/
theorem derived_names_distinct_witness :
    (∃ stub count args returns log box,
      index0 (methodField "Greet" [] none).names = .ok "Greet" ∧
      methodStubFuncName (methodField "Greet" [] none) = .ok stub ∧
      callCountMethodName (methodField "Greet" [] none) = .ok count ∧
      callArgsMethodName (methodField "Greet" [] none) = .ok args ∧
      returnSetterMethodName (methodField "Greet" [] none) = .ok returns ∧
      callArgsFieldName (methodField "Greet" [] none) = .ok log ∧
      returnStructFieldName (methodField "Greet" [] none) = .ok box ∧
      ["Greet", stub, count, args, returns, log, box].Nodup) ∧
    callArgsFieldName (methodField "greet" [] none) =
      callArgsMethodName (methodField "greet" [] none) :=
  ⟨(derived_names_distinct "Greet" 'G' "reet".data [] none rfl).1 (by decide),
    (derived_names_distinct "greet" 'g' "reet".data [] none rfl).2 (by decide)⟩

/-! ## The cosmetic pass on the text -/


theorem prettifyCode_data (code : String) : (prettifyCode code).data = prettifyChars code.data :=
  rfl

theorem insert_nil : funcRegexpReplaceAll [] = [] := rfl

theorem insert_cons_ne (c : Char) (cs : List Char) (h : c ≠ '\n') :
    funcRegexpReplaceAll (c :: cs) = c :: funcRegexpReplaceAll cs := by
  simp [funcRegexpReplaceAll, replaceAllFrom, List.isPrefixOf, h, Ne.symm h]

theorem insert_func (rest : List Char) :
    funcRegexpReplaceAll ('\n' :: 'f' :: 'u' :: 'n' :: 'c' :: rest) =
      '\n' :: '\n' :: 'f' :: 'u' :: 'n' :: 'c' :: funcRegexpReplaceAll rest := by
  simp [funcRegexpReplaceAll, replaceAllFrom, List.isPrefixOf]

theorem insert_newline (cs : List Char) (h : ¬ "func".data <+: cs) :
    funcRegexpReplaceAll ('\n' :: cs) = '\n' :: funcRegexpReplaceAll cs := by
  have : ("\nfunc".data.isPrefixOf ('\n' :: cs)) = false := by
    rw [Bool.eq_false_iff]
    intro hp
    apply h
    rw [List.isPrefixOf_iff_prefix] at hp
    exact (List.cons_prefix_cons.1 hp).2
  simp only [funcRegexpReplaceAll, replaceAllFrom, this]
  simp

theorem collapse_nil : replaceAllFrom "\n\n\n".data "\n\n".data 0 [] = [] := rfl

theorem collapse_cons_ne (c : Char) (cs : List Char) (h : c ≠ '\n') :
    replaceAllFrom "\n\n\n".data "\n\n".data 0 (c :: cs) =
      c :: replaceAllFrom "\n\n\n".data "\n\n".data 0 cs := by
  simp [replaceAllFrom, List.isPrefixOf, h, Ne.symm h]

theorem collapse_three (rest : List Char) :
    replaceAllFrom "\n\n\n".data "\n\n".data 0 ('\n' :: '\n' :: '\n' :: rest) =
      '\n' :: '\n' :: replaceAllFrom "\n\n\n".data "\n\n".data 0 rest := by
  simp [replaceAllFrom, List.isPrefixOf]

theorem collapse_one_nil : replaceAllFrom "\n\n\n".data "\n\n".data 0 ['\n'] = ['\n'] := by
  decide

theorem collapse_two_nil :
    replaceAllFrom "\n\n\n".data "\n\n".data 0 ['\n', '\n'] = ['\n', '\n'] := by
  decide

theorem collapse_one (c : Char) (cs : List Char) (h : c ≠ '\n') :
    replaceAllFrom "\n\n\n".data "\n\n".data 0 ('\n' :: c :: cs) =
      '\n' :: c :: replaceAllFrom "\n\n\n".data "\n\n".data 0 cs := by
  simp [replaceAllFrom, List.isPrefixOf, h, Ne.symm h]

theorem collapse_two (c : Char) (cs : List Char) (h : c ≠ '\n') :
    replaceAllFrom "\n\n\n".data "\n\n".data 0 ('\n' :: '\n' :: c :: cs) =
      '\n' :: '\n' :: c :: replaceAllFrom "\n\n\n".data "\n\n".data 0 cs := by
  simp [replaceAllFrom, List.isPrefixOf, h, Ne.symm h]

/-! ### The pass, run by run -/

theorem prettify_nil : prettifyChars [] = [] := rfl

theorem prettify_cons_ne (c : Char) (cs : List Char) (h : c ≠ '\n') :
    prettifyChars (c :: cs) = c :: prettifyChars cs := by
  simp only [prettifyChars, insert_cons_ne c cs h, collapse_cons_ne _ _ h]

theorem func_prefix_iff (cs : List Char) :
    "func".data <+: cs ↔ ∃ rest, cs = 'f' :: 'u' :: 'n' :: 'c' :: rest := by
  constructor
  · rintro ⟨t, rfl⟩
    exact ⟨t, rfl⟩
  · rintro ⟨rest, rfl⟩
    exact ⟨rest, rfl⟩

theorem prettify_func (rest : List Char) :
    prettifyChars ('f' :: 'u' :: 'n' :: 'c' :: rest) =
      'f' :: 'u' :: 'n' :: 'c' :: prettifyChars rest := by
  rw [prettify_cons_ne _ _ (by decide), prettify_cons_ne _ _ (by decide),
    prettify_cons_ne _ _ (by decide), prettify_cons_ne _ _ (by decide)]

theorem prettify_one_func (rest : List Char) :
    prettifyChars ('\n' :: 'f' :: 'u' :: 'n' :: 'c' :: rest) =
      '\n' :: '\n' :: 'f' :: 'u' :: 'n' :: 'c' :: prettifyChars rest := by
  have h := prettify_func rest
  simp only [prettifyChars] at h ⊢
  rw [insert_func, collapse_two _ _ (by decide)]
  rw [insert_cons_ne _ _ (by decide), insert_cons_ne _ _ (by decide),
    insert_cons_ne _ _ (by decide), insert_cons_ne _ _ (by decide)] at h
  rw [collapse_cons_ne _ _ (by decide)] at h
  simpa using h

theorem prettify_two_func (rest : List Char) :
    prettifyChars ('\n' :: '\n' :: 'f' :: 'u' :: 'n' :: 'c' :: rest) =
      '\n' :: '\n' :: 'f' :: 'u' :: 'n' :: 'c' :: prettifyChars rest := by
  have h := prettify_func rest
  simp only [prettifyChars] at h ⊢
  rw [insert_newline _ (by simp [func_prefix_iff]), insert_func, collapse_three]
  rw [insert_cons_ne _ _ (by decide), insert_cons_ne _ _ (by decide),
    insert_cons_ne _ _ (by decide), insert_cons_ne _ _ (by decide)] at h
  simpa using h

theorem prettify_one_nil : prettifyChars ['\n'] = ['\n'] := by decide

theorem prettify_two_nil : prettifyChars ['\n', '\n'] = ['\n', '\n'] := by decide

theorem prettify_one (c : Char) (cs : List Char) (h : c ≠ '\n')
    (hf : ¬ "func".data <+: c :: cs) :
    prettifyChars ('\n' :: c :: cs) = '\n' :: c :: prettifyChars cs := by
  simp only [prettifyChars]
  rw [insert_newline _ hf, insert_cons_ne _ _ h, collapse_one _ _ h]

theorem prettify_two (c : Char) (cs : List Char) (h : c ≠ '\n')
    (hf : ¬ "func".data <+: c :: cs) :
    prettifyChars ('\n' :: '\n' :: c :: cs) = '\n' :: '\n' :: c :: prettifyChars cs := by
  simp only [prettifyChars]
  rw [insert_newline _ (by simp [func_prefix_iff]), insert_newline _ hf, insert_cons_ne _ _ h,
    collapse_two _ _ h]

theorem prettify_newline (c : Char) (cs : List Char) (h : c ≠ '\n') :
    prettifyChars ('\n' :: c :: cs) =
      if "func".data <+: c :: cs then '\n' :: '\n' :: prettifyChars (c :: cs)
      else '\n' :: prettifyChars (c :: cs) := by
  by_cases hf : "func".data <+: c :: cs
  · rw [if_pos hf]
    obtain ⟨rest, hrest⟩ := (func_prefix_iff _).1 hf
    rw [hrest, prettify_one_func, prettify_func]
  · rw [if_neg hf, prettify_one c cs h hf, prettify_cons_ne c cs h]

theorem prettify_two_newlines (c : Char) (cs : List Char) (h : c ≠ '\n') :
    prettifyChars ('\n' :: '\n' :: c :: cs) = '\n' :: '\n' :: prettifyChars (c :: cs) := by
  by_cases hf : "func".data <+: c :: cs
  · obtain ⟨rest, hrest⟩ := (func_prefix_iff _).1 hf
    rw [hrest, prettify_two_func, prettify_func]
  · rw [prettify_two c cs h hf, prettify_cons_ne c cs h]

theorem hasBlankRun_cons (c : Char) (t : List Char) :
    hasBlankRun (c :: t) ↔ (c = '\n' ∧ "\n\n".data <+: t) ∨ hasBlankRun t := by
  unfold hasBlankRun
  rw [List.infix_cons_iff]
  constructor
  · rintro (h | h)
    · exact Or.inl ⟨((List.cons_prefix_cons).1 h).1.symm, ((List.cons_prefix_cons).1 h).2⟩
    · exact Or.inr h
  · rintro (⟨h1, h2⟩ | h)
    · exact Or.inl ((List.cons_prefix_cons).2 ⟨h1.symm, h2⟩)
    · exact Or.inr h

/-- Induction over a text without run of three newlines, one run at a time. -/
theorem run_induction (motive : List Char → Prop) (nil : motive [])
    (char : ∀ c cs, c ≠ '\n' → motive cs → motive (c :: cs))
    (one_nil : motive ['\n']) (two_nil : motive ['\n', '\n'])
    (one : ∀ c cs, c ≠ '\n' → motive (c :: cs) → motive ('\n' :: c :: cs))
    (two : ∀ c cs, c ≠ '\n' → motive (c :: cs) → motive ('\n' :: '\n' :: c :: cs)) :
    ∀ s, ¬ hasBlankRun s → motive s := by
  suffices h : ∀ n s, s.length = n → ¬ hasBlankRun s → motive s from
    fun s hs => h s.length s rfl hs
  intro n
  induction n using Nat.strong_induction_on with
  | _ n ih =>
    intro s hn hs
    subst hn
    match s, hs with
    | [], _ => exact nil
    | c :: cs, hs =>
      rw [hasBlankRun_cons] at hs
      push_neg at hs
      by_cases hc : c = '\n'
      · subst hc
        match cs, hs with
        | [], _ => exact one_nil
        | c2 :: cs2, hs =>
          by_cases hc2 : c2 = '\n'
          · subst hc2
            match cs2, hs with
            | [], _ => exact two_nil
            | c3 :: cs3, hs =>
              have hc3 : c3 ≠ '\n' := by
                intro h3
                subst h3
                exact hs.1 rfl ⟨cs3, rfl⟩
              have h3 : ¬ hasBlankRun (c3 :: cs3) := by
                have := hs.2
                rw [hasBlankRun_cons] at this
                push_neg at this
                exact this.2
              exact two c3 cs3 hc3 (ih _ (by simp) _ rfl h3)
          · exact one c2 cs2 hc2 (ih _ (by simp) _ rfl hs.2)
      · exact char c cs hc (ih _ (by simp) _ rfl hs.2)

theorem insert_head_newline (t : List Char) :
    ∃ y, funcRegexpReplaceAll ('\n' :: t) = '\n' :: y := by
  by_cases hf : "func".data <+: t
  · obtain ⟨rest, hrest⟩ := (func_prefix_iff _).1 hf
    exact ⟨_, by rw [hrest, insert_func]⟩
  · exact ⟨_, insert_newline t hf⟩

theorem collapse_head_newline (y : List Char) :
    ∃ z, replaceAllFrom "\n\n\n".data "\n\n".data 0 ('\n' :: y) = '\n' :: z := by
  simp only [replaceAllFrom]
  split
  · exact ⟨_, rfl⟩
  · exact ⟨_, rfl⟩

theorem prettify_head (t : List Char) : (prettifyChars t).head? = t.head? := by
  cases t with
  | nil => rfl
  | cons c cs =>
    by_cases hc : c = '\n'
    · subst hc
      obtain ⟨y, hy⟩ := insert_head_newline cs
      obtain ⟨z, hz⟩ := collapse_head_newline y
      simp only [prettifyChars, hy, hz, List.head?_cons]
    · rw [prettify_cons_ne c cs hc]
      rfl

theorem prettify_peel (c : Char) (t x : List Char) (hc : c ≠ '\n')
    (h : prettifyChars t = c :: x) : ∃ u, t = c :: u ∧ x = prettifyChars u := by
  have hh := prettify_head t
  rw [h] at hh
  cases t with
  | nil => simp at hh
  | cons d u =>
    simp only [List.head?_cons, Option.some.injEq] at hh
    subst hh
    rw [prettify_cons_ne c u hc] at h
    exact ⟨u, rfl, (List.cons.inj h).2.symm⟩

theorem func_prefix_of_prettify (t : List Char) (h : "func".data <+: prettifyChars t) :
    "func".data <+: t := by
  obtain ⟨r, hr⟩ := (func_prefix_iff _).1 h
  obtain ⟨u1, rfl, h1⟩ := prettify_peel 'f' t _ (by decide) hr
  obtain ⟨u2, rfl, h2⟩ := prettify_peel 'u' u1 _ (by decide) h1.symm
  obtain ⟨u3, rfl, h3⟩ := prettify_peel 'n' u2 _ (by decide) h2.symm
  obtain ⟨u4, rfl, -⟩ := prettify_peel 'c' u3 _ (by decide) h3.symm
  exact (func_prefix_iff _).2 ⟨u4, rfl⟩

theorem func_prefix_prettify (t : List Char) (h : "func".data <+: t) :
    "func".data <+: prettifyChars t := by
  obtain ⟨r, rfl⟩ := (func_prefix_iff _).1 h
  rw [prettify_func]
  exact (func_prefix_iff _).2 ⟨_, rfl⟩

/-! ### No run of three newlines in the output -/

theorem prettify_no_blank_run (s : List Char) (hs : ¬ hasBlankRun s) :
    ¬ hasBlankRun (prettifyChars s) := by
  refine run_induction (fun s => ¬ hasBlankRun (prettifyChars s)) ?_ ?_ ?_ ?_ ?_ ?_ s hs
  · unfold hasBlankRun; decide
  · intro c cs hc ih
    rw [prettify_cons_ne c cs hc, hasBlankRun_cons]
    push_neg
    exact ⟨fun h => absurd h hc, ih⟩
  · unfold hasBlankRun; decide
  · unfold hasBlankRun; decide
  · intro c cs hc ih
    rw [prettify_cons_ne c cs hc] at ih
    rw [prettify_newline c cs hc, prettify_cons_ne c cs hc]
    split <;> simp [hasBlankRun_cons, ih, hc, Ne.symm hc]
  · intro c cs hc ih
    rw [prettify_cons_ne c cs hc] at ih
    rw [prettify_two_newlines c cs hc, prettify_cons_ne c cs hc]
    simp [hasBlankRun_cons, ih, hc, Ne.symm hc]

/-! ### Idempotence -/

theorem prettify_idempotent (s : List Char) (hs : ¬ hasBlankRun s) :
    prettifyChars (prettifyChars s) = prettifyChars s := by
  refine run_induction (fun s => prettifyChars (prettifyChars s) = prettifyChars s)
    ?_ ?_ ?_ ?_ ?_ ?_ s hs
  · rfl
  · intro c cs hc ih
    rw [prettify_cons_ne c cs hc, prettify_cons_ne c _ hc, ih]
  · decide
  · decide
  · intro c cs hc ih
    rw [prettify_newline c cs hc]
    rw [prettify_cons_ne c cs hc] at ih ⊢
    by_cases hf : "func".data <+: c :: cs
    · rw [if_pos hf, prettify_two_newlines c _ hc, ih]
    · have hf2 : ¬ "func".data <+: c :: prettifyChars cs := by
        intro h
        rw [← prettify_cons_ne c cs hc] at h
        exact hf (func_prefix_of_prettify _ h)
      rw [if_neg hf, prettify_newline c _ hc, if_neg hf2, ih]
  · intro c cs hc ih
    rw [prettify_two_newlines c cs hc]
    rw [prettify_cons_ne c cs hc] at ih ⊢
    rw [prettify_two_newlines c _ hc, ih]

/-! ### Spacing of `func` in the output -/

theorem funcsSpaced_short (s : List Char) (h : s.length < 5) : funcsSpaced s := by
  intro a b hab
  have := congrArg List.length hab
  simp at this
  omega

theorem funcsSpaced_cons (c : Char) (t : List Char) (hc : c ≠ '\n') (ht : funcsSpaced t) :
    funcsSpaced (c :: t) := by
  intro a b hab
  cases a with
  | nil =>
    simp at hab
    exact absurd hab.1 hc
  | cons d a2 =>
    simp only [List.cons_append, List.cons.injEq] at hab
    obtain ⟨rfl, hab⟩ := hab
    obtain ⟨a', rfl, hlast⟩ := ht a2 b (by simpa using hab)
    refine ⟨c :: a', rfl, ?_⟩
    cases a' with
    | nil => simpa using hc
    | cons e a3 => simpa [List.getLast?_cons_cons] using hlast

theorem funcsSpaced_newline (t : List Char) (ht : funcsSpaced t) (hhead : t.head? ≠ some '\n')
    (hf : ¬ "func".data <+: t) : funcsSpaced ('\n' :: t) := by
  intro a b hab
  cases a with
  | nil =>
    simp at hab
    exact absurd ⟨b, hab.symm⟩ hf
  | cons d a2 =>
    simp only [List.cons_append, List.cons.injEq] at hab
    obtain ⟨rfl, hab⟩ := hab
    obtain ⟨a', rfl, hlast⟩ := ht a2 b (by simpa using hab)
    refine ⟨'\n' :: a', rfl, ?_⟩
    cases a' with
    | nil =>
      exfalso
      apply hhead
      rw [hab]
      rfl
    | cons e a3 => simpa [List.getLast?_cons_cons] using hlast

theorem funcsSpaced_two_newlines (t : List Char) (ht : funcsSpaced t)
    (hhead : t.head? ≠ some '\n') : funcsSpaced ('\n' :: '\n' :: t) := by
  intro a b hab
  cases a with
  | nil => simp at hab
  | cons d a2 =>
    simp only [List.cons_append, List.cons.injEq] at hab
    obtain ⟨rfl, hab⟩ := hab
    cases a2 with
    | nil => exact ⟨[], rfl, by simp⟩
    | cons d2 a3 =>
      simp only [List.cons_append, List.cons.injEq] at hab
      obtain ⟨rfl, hab⟩ := hab
      obtain ⟨a', rfl, hlast⟩ := ht a3 b (by simpa using hab)
      refine ⟨'\n' :: '\n' :: a', rfl, ?_⟩
      cases a' with
      | nil =>
        exfalso
        apply hhead
        rw [hab]
        rfl
      | cons e a4 => simpa [List.getLast?_cons_cons] using hlast

/-! ### Spacing of `func` when no long run precedes a `func` -/

theorem hasBlankRunBeforeFunc_cons (c : Char) (t : List Char)
    (h : ¬ hasBlankRunBeforeFunc (c :: t)) : ¬ hasBlankRunBeforeFunc t := by
  intro ht
  apply h
  unfold hasBlankRunBeforeFunc at ht ⊢
  exact (List.infix_cons_iff).2 (Or.inr ht)

theorem not_func_after_three (t : List Char)
    (h : ¬ hasBlankRunBeforeFunc ('\n' :: '\n' :: '\n' :: t)) : ¬ "func".data <+: t := by
  intro hf
  apply h
  obtain ⟨r, rfl⟩ := (func_prefix_iff _).1 hf
  exact ⟨[], r, rfl⟩

theorem prettify_three_newlines (t : List Char) (hf : ¬ "func".data <+: t) :
    prettifyChars ('\n' :: '\n' :: '\n' :: t) = '\n' :: '\n' :: prettifyChars t := by
  simp only [prettifyChars]
  rw [insert_newline _ (by simp [func_prefix_iff]), insert_newline _ (by simp [func_prefix_iff]),
    insert_newline _ hf, collapse_three]

/-- Induction over a text in which no `func` follows three newlines. -/
theorem run_induction_func (motive : List Char → Prop) (nil : motive [])
    (char : ∀ c cs, c ≠ '\n' → motive cs → motive (c :: cs))
    (one_nil : motive ['\n']) (two_nil : motive ['\n', '\n'])
    (one : ∀ c cs, c ≠ '\n' → motive (c :: cs) → motive ('\n' :: c :: cs))
    (two : ∀ c cs, c ≠ '\n' → motive (c :: cs) → motive ('\n' :: '\n' :: c :: cs))
    (three : ∀ t, ¬ hasBlankRunBeforeFunc ('\n' :: '\n' :: '\n' :: t) → motive t →
      motive ('\n' :: '\n' :: '\n' :: t)) :
    ∀ s, ¬ hasBlankRunBeforeFunc s → motive s := by
  suffices h : ∀ n s, s.length = n → ¬ hasBlankRunBeforeFunc s → motive s from
    fun s hs => h s.length s rfl hs
  intro n
  induction n using Nat.strong_induction_on with
  | _ n ih =>
    intro s hn hs
    subst hn
    match s, hs with
    | [], _ => exact nil
    | c :: cs, hs =>
      have hcs := hasBlankRunBeforeFunc_cons c cs hs
      by_cases hc : c = '\n'
      · subst hc
        match cs, hs, hcs with
        | [], _, _ => exact one_nil
        | c2 :: cs2, hs, hcs =>
          have hcs2 := hasBlankRunBeforeFunc_cons c2 cs2 hcs
          by_cases hc2 : c2 = '\n'
          · subst hc2
            match cs2, hs, hcs2 with
            | [], _, _ => exact two_nil
            | c3 :: cs3, hs, hcs2 =>
              by_cases hc3 : c3 = '\n'
              · subst hc3
                exact three cs3 hs
                  (ih _ (by simp; omega) _ rfl (hasBlankRunBeforeFunc_cons _ _ hcs2))
              · exact two c3 cs3 hc3 (ih _ (by simp) _ rfl hcs2)
          · exact one c2 cs2 hc2 (ih _ (by simp) _ rfl hcs)
      · exact char c cs hc (ih _ (by simp) _ rfl hcs)

theorem prettify_two_newlines_func (r b : List Char) (hr : ¬ hasBlankRunBeforeFunc r)
    (h : prettifyChars r = '\n' :: '\n' :: 'f' :: 'u' :: 'n' :: 'c' :: b) :
    (∃ u, r = '\n' :: 'f' :: 'u' :: 'n' :: 'c' :: u) ∨
      ∃ u, r = '\n' :: '\n' :: 'f' :: 'u' :: 'n' :: 'c' :: u := by
  have hhead := prettify_head r
  rw [h] at hhead
  match r, hr, h, hhead with
  | [], _, _, hhead => simp at hhead
  | c :: r2, hr, h, hhead =>
    simp only [List.head?_cons, Option.some.injEq] at hhead
    subst hhead
    match r2, hr, h with
    | [], _, h =>
      rw [prettify_one_nil] at h
      simp at h
    | c2 :: r3, hr, h =>
      by_cases hc2 : c2 = '\n'
      · subst hc2
        match r3, hr, h with
        | [], _, h =>
          rw [prettify_two_nil] at h
          simp at h
        | c3 :: r4, hr, h =>
          by_cases hc3 : c3 = '\n'
          · subst hc3
            exfalso
            have hf := not_func_after_three r4 hr
            rw [prettify_three_newlines r4 hf] at h
            simp only [List.cons.injEq, true_and] at h
            exact hf (func_prefix_of_prettify _ ((func_prefix_iff _).2 ⟨b, h⟩))
          · right
            rw [prettify_two_newlines c3 r4 hc3] at h
            simp only [List.cons.injEq, true_and] at h
            exact (func_prefix_iff _).1
              (func_prefix_of_prettify _ ((func_prefix_iff _).2 ⟨b, h⟩)) |>.imp
              fun u hu => by rw [hu]
      · rw [prettify_newline c2 r3 hc2] at h
        by_cases hf : "func".data <+: c2 :: r3
        · left
          obtain ⟨u, hu⟩ := (func_prefix_iff _).1 hf
          exact ⟨u, by rw [hu]⟩
        · exfalso
          rw [if_neg hf, prettify_cons_ne c2 r3 hc2] at h
          simp only [List.cons.injEq, true_and] at h
          exact hc2 h.1

theorem prettify_funcs_spaced_of_no_run_before_func (s : List Char)
    (hs : ¬ hasBlankRunBeforeFunc s) : funcsSpaced (prettifyChars s) := by
  refine run_induction_func (fun s => funcsSpaced (prettifyChars s)) ?_ ?_ ?_ ?_ ?_ ?_ ?_ s hs
  · exact funcsSpaced_short _ (by decide)
  · intro c cs hc ih
    rw [prettify_cons_ne c cs hc]
    exact funcsSpaced_cons c _ hc ih
  · exact funcsSpaced_short _ (by decide)
  · exact funcsSpaced_short _ (by decide)
  · intro c cs hc ih
    have hhead : (prettifyChars (c :: cs)).head? ≠ some '\n' := by
      rw [prettify_head]
      simpa using hc
    rw [prettify_newline c cs hc]
    by_cases hf : "func".data <+: c :: cs
    · rw [if_pos hf]
      exact funcsSpaced_two_newlines _ ih hhead
    · rw [if_neg hf]
      exact funcsSpaced_newline _ ih hhead (fun h => hf (func_prefix_of_prettify _ h))
  · intro c cs hc ih
    have hhead : (prettifyChars (c :: cs)).head? ≠ some '\n' := by
      rw [prettify_head]
      simpa using hc
    rw [prettify_two_newlines c cs hc]
    exact funcsSpaced_two_newlines _ ih hhead
  · intro t ht ih
    have hf := not_func_after_three t ht
    have htt : ¬ hasBlankRunBeforeFunc t :=
      hasBlankRunBeforeFunc_cons _ _ (hasBlankRunBeforeFunc_cons _ _
        (hasBlankRunBeforeFunc_cons _ _ ht))
    rw [prettify_three_newlines t hf]
    intro a b hab
    cases a with
    | nil => simp at hab
    | cons d a2 =>
      simp only [List.cons_append, List.cons.injEq] at hab
      obtain ⟨rfl, hab⟩ := hab
      cases a2 with
      | nil =>
        exfalso
        simp only [List.nil_append, List.cons_append, List.cons.injEq, true_and] at hab
        exact hf (func_prefix_of_prettify _ ((func_prefix_iff _).2 ⟨b, by simpa using hab⟩))
      | cons d2 a3 =>
        simp only [List.cons_append, List.cons.injEq] at hab
        obtain ⟨rfl, hab⟩ := hab
        obtain ⟨a', rfl, hlast⟩ := ih a3 b (by simpa using hab)
        refine ⟨'\n' :: '\n' :: a', rfl, ?_⟩
        cases a' with
        | nil =>
          exfalso
          have hp : prettifyChars t = '\n' :: '\n' :: 'f' :: 'u' :: 'n' :: 'c' :: b := by
            simpa using hab
          rcases prettify_two_newlines_func t b htt hp with ⟨u, hu⟩ | ⟨u, hu⟩
          · apply ht
            rw [hu]
            exact ⟨['\n'], u, rfl⟩
          · apply ht
            rw [hu]
            exact ⟨['\n', '\n'], u, rfl⟩
        | cons e a4 => simpa [List.getLast?_cons_cons] using hlast

theorem not_blank_run_before_func (s : List Char) (hs : ¬ hasBlankRun s) :
    ¬ hasBlankRunBeforeFunc s := by
  intro h
  apply hs
  obtain ⟨a, b, hab⟩ := h
  exact ⟨a, "func".data ++ b, by rw [← hab]; simp⟩

/-- C16, counterexample: on three newlines followed by `func` the output of
`prettifyCode` is the input itself, in which `func` follows a newline and is
preceded by three newline characters. -/
theorem prettifyCode_three_newlines_func :
    prettifyCode "\n\n\nfunc" = "\n\n\nfunc" ∧
    ¬ funcsSpaced (prettifyCode "\n\n\nfunc").data := by
  refine ⟨by decide, fun h => ?_⟩
  obtain ⟨a', ha, hlast⟩ := h ['\n', '\n'] [] (by decide)
  match a', ha, hlast with
  | [], ha, _ => simp at ha
  | [x], ha, hlast =>
    simp only [List.cons_append, List.nil_append, List.cons.injEq, and_true] at ha
    subst ha
    simp at hlast
  | _ :: _ :: _, ha, _ =>
    have := congrArg List.length ha
    simp at this

/-- C16, amended: for every input string in which no `func` directly follows
three newline characters, every `func` that directly follows a newline in the
output of `prettifyCode` is preceded by exactly two newline characters. -/
theorem prettifyCode_funcs_spaced (code : String)
    (h : ¬ hasBlankRunBeforeFunc code.data) : funcsSpaced (prettifyCode code).data :=
  prettify_funcs_spaced_of_no_run_before_func code.data h

/-- Witness of the amended C16 at a text with a run of four newlines that is
not followed by `func`. -/
theorem prettifyCode_funcs_spaced_witness :
    ¬ hasBlankRunBeforeFunc "package fakes\n\n\n\nimport x\nfunc a\n\nfunc b\n".data ∧
    funcsSpaced (prettifyCode "package fakes\n\n\n\nimport x\nfunc a\n\nfunc b\n").data :=
  ⟨by unfold hasBlankRunBeforeFunc; decide,
    prettifyCode_funcs_spaced _ (by unfold hasBlankRunBeforeFunc; decide)⟩

/-- C20: for every input string without run of three or more consecutive
newline characters, the output of `prettifyCode` has no such run either,
every `func` that directly follows a newline in it is preceded by exactly two
newline characters, and `prettifyCode` returns that output unchanged. -/
theorem prettifyCode_of_no_blank_run (code : String) (h : ¬ hasBlankRun code.data) :
    ¬ hasBlankRun (prettifyCode code).data ∧
    funcsSpaced (prettifyCode code).data ∧
    prettifyCode (prettifyCode code) = prettifyCode code :=
  ⟨prettify_no_blank_run code.data h,
    prettify_funcs_spaced_of_no_run_before_func code.data (not_blank_run_before_func _ h),
    congrArg String.mk (prettify_idempotent code.data h)⟩

/-- Witness of C20 at a text of three declarations. -/
theorem prettifyCode_of_no_blank_run_witness :
    ¬ hasBlankRun "package fakes\n\ntype Fake struct\nfunc a\n\nfunc b\n".data ∧
    prettifyCode "package fakes\n\ntype Fake struct\nfunc a\n\nfunc b\n" =
      "package fakes\n\ntype Fake struct\n\nfunc a\n\nfunc b\n" ∧
    prettifyCode (prettifyCode "package fakes\n\ntype Fake struct\nfunc a\n\nfunc b\n") =
      prettifyCode "package fakes\n\ntype Fake struct\nfunc a\n\nfunc b\n" :=
  ⟨by unfold hasBlankRun; decide, by decide,
    (prettifyCode_of_no_blank_run _ (by unfold hasBlankRun; decide)).2.2⟩

/-! ## Methods with an empty result list, grouped parameters, or named `Lock` -/

/-- C1, evaluated at the interface with the one method `Close() ()`, whose
result list is present but empty: the method has no result, so the list built
by `sourceFile` should hold 2 + 3 declarations; it holds 6, the last one the
function `CloseReturns`.  For `Stop()`, without result list, it holds 5. -/
theorem sourceFile_of_empty_result_list :
    closeSig.results.map numFields = some 0 ∧
    ((sourceFile "FakeCloser" "fakes" (interfaceOf [closeSig])).toOption.map
      fun file => file.decls.length) = some 6 ∧
    ((sourceFile "FakeCloser" "fakes" (interfaceOf [closeSig])).toOption.bind
      fun file => file.decls.getLast?.bind funcDeclName) = some "CloseReturns" ∧
    ((sourceFile "FakeStopper" "fakes" (interfaceOf [stopSig])).toOption.map
      fun file => file.decls.length) = some 5 :=
  ⟨by decide, by decide, by decide, by decide⟩

/-- C5, evaluated at the interface with the one method `Close() ()`: the
method has no result, so the struct built by `typeDecl` should have 1 + 2
fields; it has 4, the last one the return-box field `closeReturns` of the
empty struct type.  For `Stop()`, without result list, it has 3. -/
theorem typeDecl_of_empty_result_list :
    closeSig.results.map numFields = some 0 ∧
    typeDecl "FakeCloser" (interfaceOf [closeSig]) = .ok
      (Decl.GenDecl Token.TYPE [Spec.TypeSpec "FakeCloser" (Expr.StructType
        [ Field.mk [] (Expr.SelectorExpr (Expr.Ident "sync") "RWMutex"),
          Field.mk ["CloseStub"] (Expr.FuncType (some []) (some [])),
          Field.mk ["closeArgsForCall"] (Expr.ArrayType none (Expr.StructType [])),
          Field.mk ["closeReturns"] (Expr.StructType []) ])]) ∧
    ((typeDecl "FakeStopper" (interfaceOf [stopSig])).toOption.map
      fun d => (structFieldNames d).length) = some 3 :=
  ⟨by decide, rfl, by decide⟩

/-- C9, evaluated at `Close() ()`: the method has no result, so the
then-branch of the last statement should be the stub call as a statement,
without else-branch and without return statement; the generated statement is
`if fake.CloseStub != nil { return fake.CloseStub() } else { return }`. -/
theorem last_statement_of_empty_result_list :
    closeSig.results.map numFields = some 0 ∧
    ((methodImplementationDecl "FakeCloser" closeSig.field).toOption.bind
      fun d => d.body.getLast?) =
      some (Stmt.IfStmt
        (Expr.BinaryExpr (Expr.SelectorExpr (Expr.Ident "fake") "CloseStub") Token.NEQ
          (Expr.BasicLit Token.STRING "nil"))
        [Stmt.ReturnStmt
          [Expr.CallExpr (Expr.SelectorExpr (Expr.Ident "fake") "CloseStub") [] 0]]
        (some (Stmt.BlockStmt [Stmt.ReturnStmt []]))) :=
  ⟨by decide, rfl⟩

/-- C6, evaluated at `Add(a, b int) int`: the method has the two parameters
`a` and `b`, so the argument record should have the fields `arg1 int` and
`arg2 int`; `argsStructTypeForMethod` yields the single field `arg1 int`. -/
theorem argsStruct_of_grouped_params :
    numFields [Field.mk ["a", "b"] (Expr.Ident "int")] = 2 ∧
    argsStructTypeForMethod
      { params := some [Field.mk ["a", "b"] (Expr.Ident "int")]
        results := some [Field.mk [] (Expr.Ident "int")] } =
      .ok (Expr.StructType [Field.mk ["arg1"] (Expr.Ident "int")]) :=
  ⟨by decide, rfl⟩

/-- C11, evaluated at `Add(a, b int) int`: the method has two parameters, so
the accessor `AddArgsForCall` should declare two results and return two
expressions; it declares the single result `int` and returns the single
expression `fake.addArgsForCall[i].arg1`. -/
theorem callArgsGetter_of_grouped_params :
    numFields [Field.mk ["a", "b"] (Expr.Ident "int")] = 2 ∧
    ((methodCallArgsGetterDecl "Fake" addMethod).toOption.map
      fun d => (d.name, d.typ.results, d.body.getLast?)) =
      some ("AddArgsForCall", some [Field.mk [] (Expr.Ident "int")],
        some (Stmt.ReturnStmt
          [Expr.SelectorExpr
            (Expr.IndexExpr (Expr.SelectorExpr (Expr.Ident "fake") "addArgsForCall")
              (Expr.Ident "i"))
            "arg1"])) :=
  ⟨by decide, rfl⟩

/-- C17, evaluated at the method `Lock()`: the generated implementation is the
method `Lock` with receiver `fake *FakeLocker`, and it begins with
`fake.Lock()` followed by `defer fake.Unlock()`: its first statement calls, on
its own receiver, the method of its own name, which is the generated method
and not the `Lock` promoted from the embedded guard, so no exclusive lock
covers the body.  For `Stop()` the first statement is no such call. -/
theorem lock_call_of_method_named_Lock :
    ((methodImplementationDecl "FakeLocker" lockSig.field).toOption.map
      fun d => (d.name, d.recv, d.body.take 2)) =
      some ("Lock", [Field.mk ["fake"] (Expr.StarExpr (Expr.Ident "FakeLocker"))],
        [ Stmt.ExprStmt (Expr.CallExpr (Expr.SelectorExpr (Expr.Ident "fake") "Lock") [] 0),
          Stmt.DeferStmt
            (Expr.CallExpr (Expr.SelectorExpr (Expr.Ident "fake") "Unlock") [] 0) ]) ∧
    (methodImplementationDecl "FakeLocker" lockSig.field).toOption.map beginsWithOwnCall =
      some true ∧
    (methodImplementationDecl "FakeStopper" stopSig.field).toOption.map beginsWithOwnCall =
      some false :=
  ⟨rfl, by decide, by decide⟩

/-- C12, evaluated at the interface with the one method `Lock()`: the file
built by `sourceFile` declares on `*FakeLocker` the methods `Lock`,
`LockCallCount` and `LockArgsForCall`, the struct has no field called `Lock`,
and the declared `Lock` is
`func (fake *FakeLocker) Lock() { fake.Lock(); defer fake.Unlock();
fake.lockArgsForCall = append(..); if fake.LockStub != nil { fake.LockStub() } }`:
its first statement calls the declared `Lock` again, before the statement that
appends to the call log, so one call of the implementation never reaches the
end of its body. -/
theorem implementation_of_Lock_calls_itself :
    (sourceFile "FakeLocker" "fakes" (interfaceOf [lockSig])).toOption.map
      (declaredMethods "FakeLocker") = some ["Lock", "LockCallCount", "LockArgsForCall"] ∧
    ((sourceFile "FakeLocker" "fakes" (interfaceOf [lockSig])).toOption.map
      fun file => file.decls.map structFieldNames) =
      some [[], [[], ["LockStub"], ["lockArgsForCall"]], [], [], []] ∧
    (sourceFile "FakeLocker" "fakes" (interfaceOf [lockSig])).toOption.bind
      (findFuncDecl "Lock") =
      some
        { name := "Lock"
          typ := { params := some [], results := none }
          recv := [Field.mk ["fake"] (Expr.StarExpr (Expr.Ident "FakeLocker"))]
          body :=
            [ Stmt.ExprStmt
                (Expr.CallExpr (Expr.SelectorExpr (Expr.Ident "fake") "Lock") [] 0),
              Stmt.DeferStmt
                (Expr.CallExpr (Expr.SelectorExpr (Expr.Ident "fake") "Unlock") [] 0),
              Stmt.AssignStmt [Expr.SelectorExpr (Expr.Ident "fake") "lockArgsForCall"]
                Token.ASSIGN
                [Expr.CallExpr (Expr.Ident "append")
                  [ Expr.SelectorExpr (Expr.Ident "fake") "lockArgsForCall",
                    Expr.CompositeLit (Expr.StructType []) [] ] 0],
              Stmt.IfStmt
                (Expr.BinaryExpr (Expr.SelectorExpr (Expr.Ident "fake") "LockStub")
                  Token.NEQ (Expr.BasicLit Token.STRING "nil"))
                [Stmt.ExprStmt
                  (Expr.CallExpr (Expr.SelectorExpr (Expr.Ident "fake") "LockStub") [] 0)]
                none ] } ∧
    ((sourceFile "FakeLocker" "fakes" (interfaceOf [lockSig])).toOption.bind
      (findFuncDecl "Lock")).map beginsWithOwnCall = some true :=
  ⟨by decide, by decide, rfl, by decide⟩

end Generator
